import Mathlib

/-!
Verification development for the profiling subsystem of `radical.utils`
(`src/radical/utils/profile.py`): the event recorder (`Profiler.prof`),
the profile reader (`read_profiles`) and the merger (`combine_profiles`).

Modelling conventions (shallow embedding):
* Python floats are modelled as `ℚ`.  All arithmetic the claims touch
  (min, subtraction, max, comparison) is exact on the inputs considered.
* Python strings are modelled as `List Char` (`Str` below), so that
  `str.split`, substring tests and `%` formatting are plain executable
  recursion.
* Python exceptions are modelled with `Except`; the exception kind is the
  `PyErr` inductive.
* Mutation of rows in `combine_profiles` is made explicit: the embedded
  function additionally returns the post-call state of its input streams.
-/

/-- Python strings are modelled as lists of characters. -/
abbrev Str := List Char

/-- Embedding of Python `s.split(sep)` for a single-character separator:
no collapsing of empty fields, `''.split(c) == ['']`. -/
def splitOnChar (c : Char) : Str → List Str
  | [] => [[]]
  | x :: xs =>
    if x = c then [] :: splitOnChar c xs
    else
      match splitOnChar c xs with
      | [] => [[x]]
      | h :: t => (x :: h) :: t

/-- Decides whether `pat` occurs at the very beginning of `s`. -/
def strHasLead : Str → Str → Bool
  | [], _ => true
  | _ :: _, [] => false
  | p :: ps, c :: cs => decide (p = c) && strHasLead ps cs

/-- Embedding of Python `pat in s` on strings: substring containment. -/
def isSubstr (pat : Str) : Str → Bool
  | [] => pat.isEmpty
  | c :: cs => strHasLead pat (c :: cs) || isSubstr pat cs

/-- Numeric value of a digit string, most significant digit first. -/
def digitsToNat (l : Str) : Nat :=
  l.foldl (fun n c => 10 * n + (c.toNat - 48)) 0

/-- Core of the embedding of Python `float(s)`: parses an unsigned plain
decimal literal (`"12"`, `"12.5"`, `"12."`, `".5"`).  Exponents, `inf`,
`nan` and surrounding whitespace are outside the modelled fragment. -/
def pyFloatCore (s : Str) : Option ℚ :=
  match splitOnChar '.' s with
  | [ip] =>
    if ip ≠ [] ∧ ip.all Char.isDigit then some (digitsToNat ip : ℚ) else none
  | [ip, fp] =>
    if (ip ++ fp) ≠ [] ∧ (ip ++ fp).all Char.isDigit then
      some ((digitsToNat ip : ℚ) + (digitsToNat fp : ℚ) / 10 ^ fp.length)
    else none
  | _ => none

/-- Embedding of Python `float(s)` on plain signed decimal literals;
`none` models a `ValueError`. -/
def pyFloat (s : Str) : Option ℚ :=
  match s with
  | [] => none
  | c :: rest =>
    if c = '-' then (pyFloatCore rest).map Neg.neg
    else if c = '+' then pyFloatCore rest
    else pyFloatCore (c :: rest)

/-- Decimal digits of `n`, most significant first, via explicit fuel
(structural recursion keeps the definition kernel-evaluable). -/
def natToDigitsAux : Nat → Nat → Str → Str
  | 0, _, acc => acc
  | fuel + 1, n, acc =>
    let d := Char.ofNat (48 + n % 10)
    if n < 10 then d :: acc else natToDigitsAux fuel (n / 10) (d :: acc)

/-- Decimal representation of a natural number. -/
def natStr (n : Nat) : Str := natToDigitsAux (n + 1) n []

/-- Decimal representation of `n % 10000` padded with zeros to width 4. -/
def pad4 (n : Nat) : Str :=
  let d := natStr n
  List.replicate (4 - d.length) '0' ++ d

/-- Floor of a rational, computed directly on the reduced fraction
(`Int.ediv` is floor division for a positive denominator). -/
def qfloor (q : ℚ) : ℤ := q.num.ediv q.den

/-- Embedding of Python `'%.4f' % t`: round to 4 decimal digits and print
with exactly 4 fractional digits.  Python rounds the underlying binary
double half-to-even; the model rounds half-up, which agrees with Python on
every value that is exactly representable with 4 decimal digits (the only
values for which the round-trip claim is stated). -/
def fmt4 (t : ℚ) : Str :=
  let n : ℤ := qfloor (t * 10000 + 1 / 2)
  let m : Nat := n.natAbs
  let s := natStr (m / 10000) ++ '.' :: pad4 (m % 10000)
  if n < 0 then '-' :: s else s

section BasicLemmas

/-- Splitting a separator-free string is the identity. -/
theorem splitOnChar_of_not_mem {c : Char} {l : Str} (h : c ∉ l) :
    splitOnChar c l = [l] := by
  induction l with
  | nil => rfl
  | cons x xs ih =>
    have hx : ¬ x = c := fun he => h (he ▸ List.mem_cons_self x xs)
    have hxs : c ∉ xs := fun hm => h (List.mem_cons_of_mem _ hm)
    simp [splitOnChar, hx, ih hxs]

/-- Splitting peels off the first separator-free field. -/
theorem splitOnChar_append {c : Char} {a : Str} (r : Str) (h : c ∉ a) :
    splitOnChar c (a ++ c :: r) = a :: splitOnChar c r := by
  induction a with
  | nil => simp [splitOnChar]
  | cons x xs ih =>
    have hx : ¬ x = c := fun he => h (he ▸ List.mem_cons_self x xs)
    have hxs : c ∉ xs := fun hm => h (List.mem_cons_of_mem _ hm)
    simp only [List.cons_append, splitOnChar, hx, if_false, List.append_eq]
    rw [ih hxs]

/-- The substring test is equivalent to an explicit decomposition. -/
theorem isSubstr_iff (pat s : Str) :
    isSubstr pat s = true ↔ ∃ a b, s = a ++ pat ++ b := by
  have lead : ∀ (p t : Str), strHasLead p t = true ↔ ∃ b, t = p ++ b := by
    intro p
    induction p with
    | nil => intro t; simp [strHasLead]
    | cons x xs ih =>
      intro t
      cases t with
      | nil => simp [strHasLead]
      | cons c cs =>
        simp only [strHasLead, Bool.and_eq_true, decide_eq_true_eq, ih cs]
        constructor
        · rintro ⟨rfl, b, rfl⟩; exact ⟨b, rfl⟩
        · rintro ⟨b, hb⟩
          cases hb
          exact ⟨rfl, b, rfl⟩
  induction s with
  | nil =>
    simp only [isSubstr, List.isEmpty_iff]
    constructor
    · rintro rfl; exact ⟨[], [], rfl⟩
    · rintro ⟨a, b, hb⟩
      rcases List.append_eq_nil.mp ((List.append_assoc a pat b ▸ hb).symm) with ⟨h1, h2⟩
      exact (List.append_eq_nil.mp h2).1
  | cons c cs ih =>
    simp only [isSubstr, Bool.or_eq_true, lead, ih]
    constructor
    · rintro (⟨b, hb⟩ | ⟨a, b, hb⟩)
      · exact ⟨[], b, by simpa using hb⟩
      · exact ⟨c :: a, b, by simp [hb]⟩
    · rintro ⟨a, b, hb⟩
      cases a with
      | nil => exact Or.inl ⟨b, by simpa using hb⟩
      | cons a0 as =>
        simp only [List.cons_append, List.cons.injEq] at hb
        exact Or.inr ⟨as, b, by simp [hb.2]⟩

end BasicLemmas

section DigitLemmas

/-- Digit characters produced by `natToDigitsAux` satisfy `Char.isDigit`. -/
theorem digitChar_isDigit {d : Nat} (h : d < 10) :
    (Char.ofNat (48 + d)).isDigit = true := by
  interval_cases d <;> decide

/-- Code of a digit character produced by `natToDigitsAux`. -/
theorem digitChar_toNat {d : Nat} (h : d < 10) :
    (Char.ofNat (48 + d)).toNat = 48 + d := by
  interval_cases d <;> decide

/-- A digit character is none of the structural delimiter characters. -/
theorem isDigit_ne {c : Char} (h : c.isDigit = true) :
    c ≠ '.' ∧ c ≠ ',' ∧ c ≠ '#' ∧ c ≠ ':' ∧ c ≠ '-' ∧ c ≠ '+' := by
  refine ⟨?_, ?_, ?_, ?_, ?_, ?_⟩ <;> rintro rfl <;> simp at h

/-- Accumulator shift for the digit printer. -/
theorem natToDigitsAux_acc (fuel : Nat) :
    ∀ n acc, natToDigitsAux fuel n acc = natToDigitsAux fuel n [] ++ acc := by
  induction fuel with
  | zero => intro n acc; rfl
  | succ fuel ih =>
    intro n acc
    by_cases h : n < 10
    · simp [natToDigitsAux, h]
    · simp only [natToDigitsAux, h, if_false]
      rw [ih (n / 10) (Char.ofNat (48 + n % 10) :: acc),
          ih (n / 10) [Char.ofNat (48 + n % 10)], List.append_assoc]
      rfl

/-- Value computed by `digitsToNat` on an appended list. -/
theorem digitsToNat_append (a b : Str) :
    digitsToNat (a ++ b) = digitsToNat a * 10 ^ b.length + digitsToNat b := by
  have key : ∀ (l : Str) (s : Nat),
      l.foldl (fun n c => 10 * n + (c.toNat - 48)) s
        = s * 10 ^ l.length + l.foldl (fun n c => 10 * n + (c.toNat - 48)) 0 := by
    intro l
    induction l with
    | nil => intro s; simp
    | cons c cs ih =>
      intro s
      simp only [List.foldl_cons, List.length_cons]
      rw [ih (10 * s + (c.toNat - 48)), ih (10 * 0 + (c.toNat - 48))]
      ring
  unfold digitsToNat
  rw [List.foldl_append, key (b) (List.foldl _ 0 a)]

/-- The digit printer is correct: reading its output back gives `n`. -/
theorem digitsToNat_natToDigitsAux :
    ∀ fuel n, n < fuel → digitsToNat (natToDigitsAux fuel n []) = n := by
  intro fuel
  induction fuel with
  | zero => intro n h; omega
  | succ fuel ih =>
    intro n h
    by_cases h10 : n < 10
    · simp only [natToDigitsAux, h10, if_true]
      simp only [digitsToNat, List.foldl_cons, List.foldl_nil,
                 Nat.mod_eq_of_lt h10]
      rw [digitChar_toNat h10]
      omega
    · simp only [natToDigitsAux, h10, if_false]
      rw [natToDigitsAux_acc]
      rw [digitsToNat_append]
      have hdiv : n / 10 < fuel := by
        have := Nat.div_lt_self (by omega : 0 < n) (by omega : 1 < 10)
        omega
      rw [ih (n / 10) hdiv]
      have : digitsToNat [Char.ofNat (48 + n % 10)] = n % 10 := by
        simp [digitsToNat, digitChar_toNat (Nat.mod_lt n (by omega))]
      rw [this]
      simp only [List.length_singleton, pow_one]
      omega

/-- Every character the digit printer emits is a digit. -/
theorem natToDigitsAux_digits :
    ∀ fuel n c, c ∈ natToDigitsAux fuel n [] → c.isDigit = true := by
  intro fuel
  induction fuel with
  | zero => intro n c h; simp [natToDigitsAux] at h
  | succ fuel ih =>
    intro n c h
    by_cases h10 : n < 10
    · simp only [natToDigitsAux, h10, if_true, List.mem_singleton] at h
      exact h ▸ digitChar_isDigit (Nat.mod_lt n (by omega))
    · simp only [natToDigitsAux, h10, if_false] at h
      rw [natToDigitsAux_acc] at h
      rcases List.mem_append.mp h with h1 | h1
      · exact ih _ c h1
      · rw [List.mem_singleton] at h1
        exact h1 ▸ digitChar_isDigit (Nat.mod_lt n (by omega))

/-- The digit printer never returns the empty string. -/
theorem natToDigitsAux_ne_nil (fuel n : Nat) :
    natToDigitsAux (fuel + 1) n [] ≠ [] := by
  by_cases h10 : n < 10
  · simp [natToDigitsAux, h10]
  · simp only [natToDigitsAux, h10, if_false]
    rw [natToDigitsAux_acc]
    simp

/-- Length bound for the digit printer. -/
theorem natToDigitsAux_length :
    ∀ fuel n k, n < fuel → 1 ≤ k → n < 10 ^ k →
      (natToDigitsAux fuel n []).length ≤ k := by
  intro fuel
  induction fuel with
  | zero => intro n k h; omega
  | succ fuel ih =>
    intro n k h hk hnk
    by_cases h10 : n < 10
    · simp [natToDigitsAux, h10, hk]
    · simp only [natToDigitsAux, h10, if_false]
      rw [natToDigitsAux_acc, List.length_append, List.length_singleton]
      have hdiv : n / 10 < fuel := by
        have := Nat.div_lt_self (by omega : 0 < n) (by omega : 1 < 10)
        omega
      have hk2 : 2 ≤ k := by
        by_contra hlt
        have : k = 1 := by omega
        subst this
        simp at hnk
        omega
      have hq : n / 10 < 10 ^ (k - 1) := by
        rw [Nat.div_lt_iff_lt_mul (by omega : 0 < 10)]
        have : 10 ^ (k - 1) * 10 = 10 ^ k := by
          rw [mul_comm, ← pow_succ']
          congr 1
          omega
        omega
      have := ih (n / 10) (k - 1) hdiv (by omega) hq
      omega

/-- Characters of `natStr` are digits. -/
theorem natStr_digits {n : Nat} {c : Char} (h : c ∈ natStr n) : c.isDigit = true :=
  natToDigitsAux_digits _ n c h

/-- Value correctness of `natStr`. -/
theorem digitsToNat_natStr (n : Nat) : digitsToNat (natStr n) = n :=
  digitsToNat_natToDigitsAux (n + 1) n (Nat.lt_succ_self n)

/-- Nonemptiness of `natStr`. -/
theorem natStr_ne_nil (n : Nat) : natStr n ≠ [] := natToDigitsAux_ne_nil n n

/-- Length bound for `natStr`. -/
theorem natStr_length_le {n k : Nat} (hk : 1 ≤ k) (h : n < 10 ^ k) :
    (natStr n).length ≤ k :=
  natToDigitsAux_length (n + 1) n k (Nat.lt_succ_self n) hk h

/-- Leading zeros do not change the numeric value of a digit string. -/
theorem digitsToNat_replicate_zero (k : Nat) (d : Str) :
    digitsToNat (List.replicate k '0' ++ d) = digitsToNat d := by
  rw [digitsToNat_append]
  have : digitsToNat (List.replicate k '0') = 0 := by
    induction k with
    | zero => rfl
    | succ k ih =>
      rw [List.replicate_succ]
      simpa [digitsToNat] using ih
  rw [this]
  simp

/-- Characters of `pad4` are digits. -/
theorem pad4_digits {n : Nat} {c : Char} (h : c ∈ pad4 n) : c.isDigit = true := by
  unfold pad4 at h
  rcases List.mem_append.mp h with h1 | h1
  · rw [List.eq_of_mem_replicate h1]; decide
  · exact natStr_digits h1

/-- Value of `pad4` for a four-digit remainder. -/
theorem digitsToNat_pad4 (n : Nat) : digitsToNat (pad4 n) = n := by
  unfold pad4
  rw [digitsToNat_replicate_zero, digitsToNat_natStr]

/-- Length of `pad4` is exactly 4 for a value below 10000. -/
theorem pad4_length {n : Nat} (h : n < 10000) : (pad4 n).length = 4 := by
  unfold pad4
  rw [List.length_append, List.length_replicate]
  have := natStr_length_le (n := n) (k := 4) (by omega) (by norm_num; omega)
  omega

end DigitLemmas

section FormatRoundTrip

/-- The executable floor agrees with the mathematical floor. -/
theorem qfloor_eq (q : ℚ) : qfloor q = ⌊q⌋ := (Rat.floor_def).symm

/-- Shape of `fmt4 t` for a time exactly representable with 4 decimal
digits: an optional minus sign, the integer digits, a dot, and exactly 4
fractional digits of the magnitude. -/
theorem fmt4_shape {t : ℚ} (hd : (t * 10000).den = 1) :
    fmt4 t = (if (t * 10000).num < 0 then ['-'] else [])
      ++ (natStr ((t * 10000).num.natAbs / 10000)
        ++ '.' :: pad4 ((t * 10000).num.natAbs % 10000)) := by
  have hN : ((t * 10000).num : ℚ) = t * 10000 := (Rat.den_eq_one_iff _).mp hd
  have hfloor : qfloor (t * 10000 + 1 / 2) = (t * 10000).num := by
    rw [qfloor_eq, ← hN]
    rw [add_comm, Int.floor_add_int]
    norm_num
  unfold fmt4
  simp only [hfloor]
  by_cases hneg : (t * 10000).num < 0
  · rw [if_pos hneg, if_pos hneg]
    rfl
  · rw [if_neg hneg, if_neg hneg]
    rfl

/-- `float` applied to the unsigned digit string `natStr (m / 10000) ++
'.' ++ pad4 (m % 10000)` recovers `m / 10000` exactly. -/
theorem pyFloatCore_digits (m : Nat) :
    pyFloatCore (natStr (m / 10000) ++ '.' :: pad4 (m % 10000))
      = some ((m : ℚ) / 10000) := by
  have hsplit : splitOnChar '.' (natStr (m / 10000) ++ '.' :: pad4 (m % 10000))
      = [natStr (m / 10000), pad4 (m % 10000)] := by
    rw [splitOnChar_append _ (fun hmem => ((isDigit_ne (natStr_digits hmem)).1 rfl)),
        splitOnChar_of_not_mem (fun hmem => ((isDigit_ne (pad4_digits hmem)).1 rfl))]
  unfold pyFloatCore
  rw [hsplit]
  have hall : ((natStr (m / 10000) ++ pad4 (m % 10000)).all Char.isDigit) = true := by
    rw [List.all_eq_true]
    intro x hx
    rcases List.mem_append.mp hx with h1 | h1
    · exact natStr_digits h1
    · exact pad4_digits h1
  have hne : (natStr (m / 10000) ++ pad4 (m % 10000)) ≠ [] := by
    intro hcon
    exact natStr_ne_nil _ (List.append_eq_nil.mp hcon).1
  simp only [hne, hall, and_true, if_true, ne_eq, not_false_iff, if_pos, true_and]
  congr 1
  rw [digitsToNat_natStr, digitsToNat_pad4, pad4_length (Nat.mod_lt m (by omega))]
  have hdm : ((m / 10000 : ℕ) : ℚ) * 10000 + ((m % 10000 : ℕ) : ℚ) = (m : ℚ) := by
    have h := Nat.div_add_mod m 10000
    have h2 : ((10000 * (m / 10000) + m % 10000 : ℕ) : ℚ) = (m : ℚ) := by rw [h]
    push_cast at h2
    linarith
  have h10 : ((10 : ℚ) ^ 4) = 10000 := by norm_num
  rw [h10]
  field_simp
  linarith [hdm]

/-- Round trip between the recorder's `%.4f` formatting and the reader's
`float` parsing, on times of either sign exactly representable with 4
decimal digits. -/
theorem pyFloat_fmt4 {t : ℚ} (hd : (t * 10000).den = 1) :
    pyFloat (fmt4 t) = some t := by
  have hN : ((t * 10000).num : ℚ) = t * 10000 := (Rat.den_eq_one_iff _).mp hd
  rw [fmt4_shape hd]
  by_cases hneg : (t * 10000).num < 0
  · have hmq : (((t * 10000).num.natAbs : ℚ)) = -(t * 10000) := by
      have h1 : (((t * 10000).num.natAbs : ℤ)) = -(t * 10000).num := by omega
      calc (((t * 10000).num.natAbs : ℚ))
          = ((((t * 10000).num.natAbs : ℤ)) : ℚ) := (Int.cast_natCast _).symm
        _ = ((-(t * 10000).num : ℤ) : ℚ) := by rw [h1]
        _ = -(t * 10000) := by rw [Int.cast_neg, hN]
    have hval : -(((t * 10000).num.natAbs : ℚ) / 10000) = t := by
      rw [hmq]
      ring
    rw [if_pos hneg, List.singleton_append]
    have hhd : pyFloat ('-' :: (natStr ((t * 10000).num.natAbs / 10000)
        ++ '.' :: pad4 ((t * 10000).num.natAbs % 10000)))
        = (pyFloatCore (natStr ((t * 10000).num.natAbs / 10000)
            ++ '.' :: pad4 ((t * 10000).num.natAbs % 10000))).map Neg.neg := by
      simp [pyFloat]
    rw [hhd, pyFloatCore_digits]
    show some (-(((t * 10000).num.natAbs : ℚ) / 10000)) = some t
    rw [hval]
  · have hmq : (((t * 10000).num.natAbs : ℚ)) = t * 10000 := by
      have h1 : (((t * 10000).num.natAbs : ℤ)) = (t * 10000).num := by omega
      calc (((t * 10000).num.natAbs : ℚ))
          = ((((t * 10000).num.natAbs : ℤ)) : ℚ) := (Int.cast_natCast _).symm
        _ = (((t * 10000).num : ℤ) : ℚ) := by rw [h1]
        _ = t * 10000 := hN
    rw [if_neg hneg, List.nil_append]
    have hcore := pyFloatCore_digits (t * 10000).num.natAbs
    have hfin : (((t * 10000).num.natAbs : ℚ)) / 10000 = t := by
      rw [hmq]
      ring
    rw [hfin] at hcore
    cases hpad : natStr ((t * 10000).num.natAbs / 10000) with
    | nil => exact absurd hpad (natStr_ne_nil _)
    | cons c0 cs0 =>
      have hc0dig : c0.isDigit = true := natStr_digits (hpad ▸ List.mem_cons_self c0 cs0)
      have h1 : ¬ c0 = '-' := (isDigit_ne hc0dig).2.2.2.2.1
      have h2 : ¬ c0 = '+' := (isDigit_ne hc0dig).2.2.2.2.2
      rw [hpad] at hcore
      simp only [List.cons_append, pyFloat, h1, h2, if_false]
      simpa using hcore

end FormatRoundTrip

/-- Kind of Python exception raised by the embedded code. -/
inductive PyErr where
  | valueError
  | assertionError
  | indexError
  | typeError
deriving DecidableEq, Repr

/-- Decidable equality for `Except`, used to evaluate the embedded
functions on concrete inputs. -/
def exceptDecEq {ε α : Type} [DecidableEq ε] [DecidableEq α] :
    (a b : Except ε α) → Decidable (a = b)
  | .error e1, .error e2 =>
    if h : e1 = e2 then isTrue (by rw [h]) else isFalse (fun hc => h (Except.error.inj hc))
  | .error _, .ok _ => isFalse (fun hc => Except.noConfusion hc)
  | .ok _, .error _ => isFalse (fun hc => Except.noConfusion hc)
  | .ok a1, .ok a2 =>
    if h : a1 = a2 then isTrue (by rw [h]) else isFalse (fun hc => h (Except.ok.inj hc))

instance {ε α : Type} [DecidableEq ε] [DecidableEq α] : DecidableEq (Except ε α) :=
  exceptDecEq

/-- A parsed profile row, as produced by `read_profiles`.  The Python code
represents it as a 7-slot list indexed by `TIME = 0`, `EVENT = 1`,
`COMP = 2`, `UID = 3`, `STATE = 4`, `MSG = 5`, `ENTITY = 6`
(`PROF_KEY_MAX = 7`); the structure fields are in that order. -/
structure Row where
  time   : ℚ
  event  : Str
  comp   : Str
  uid    : Str
  state  : Str
  msg    : Str
  entity : Str
deriving DecidableEq, Repr

/-- The string-valued row fields an exclusion filter can address.  A filter
keyed on `TIME` would make the Python code raise a `TypeError` (substring
test on a float) and is outside the modelled fragment. -/
inductive PField where
  | event
  | comp
  | uid
  | state
  | msg
  | entity
deriving DecidableEq, Repr

/-- Value of a string field of a row, i.e. `row[field]`. -/
def getField (r : Row) : PField → Str
  | .event => r.event
  | .comp => r.comp
  | .uid => r.uid
  | .state => r.state
  | .msg => r.msg
  | .entity => r.entity

/-- An exclusion filter: field name to list of substring patterns
(the `efilter` argument of `read_profiles`). -/
abbrev EFilter := List (PField × List Str)

/-- Embedding of the filter loop of `read_profiles` (profile.py lines
295-302): `skip` starts `False`; for every filtered field and every
pattern, a substring match sets `skip = True` (the two `continue`
statements in the source affect no other state and are no-ops for the
final value of `skip`). -/
def filter_skip (efilter : EFilter) (r : Row) : Bool :=
  efilter.foldl
    (fun skip fp =>
      fp.2.foldl (fun s pat => if isSubstr pat (getField r fp.1) then true else s) skip)
    false

/-- The catch-all entity string `'session'`. -/
def sessionStr : Str := ['s','e','s','s','i','o','n']

/-- Embedding of the per-row body of the reader loop of `read_profiles`
(profile.py lines 266-291), up to but not including the filter:
header skip, padding of short rows with `None`, `float` conversion of the
mandatory time field, entity derivation (`uid.split('.',1)[0]`, or the
session id when `uid` is empty), and the per-row non-`None` assertion.
`Except.ok none` models a skipped header row.  A row longer than 7 fields
keeps its extra fields in the Python list, but they are never read
afterwards, so the model drops them. -/
def proc_row (sid : Option Str) (raw : List Str) : Except PyErr (Option Row) :=
  match raw with
  | [] => .error .indexError
  | f0 :: _ =>
    if f0.head? = some '#' then .ok none
    else
      match pyFloat f0 with
      | none => .error .valueError
      | some t =>
        let pad : List (Option Str) := raw.map some ++ List.replicate (7 - raw.length) none
        let ev := (pad.getD 1 none)
        let co := (pad.getD 2 none)
        let u0 := (pad.getD 3 none)
        let st := (pad.getD 4 none)
        let ms := (pad.getD 5 none)
        let uidEnt : Option Str × Str :=
          match u0 with
          | some u => if u ≠ [] then (some u, u.takeWhile (fun c => ¬ c = '.')) else (sid, sessionStr)
          | none => (sid, sessionStr)
        match ev, co, uidEnt.1, st, ms with
        | some ev, some co, some uid, some st, some ms =>
          .ok (some ⟨t, ev, co, uid, st, ms, uidEnt.2⟩)
        | _, _, _, _, _ => .error .assertionError

/-- One iteration of the reader loop including the filter: the parsed row
is appended to the stream's result list exactly when `skip` stayed
`False`.  The error carries the offending raw row (the Python code prints
it and re-raises). -/
def read_row (sid : Option Str) (efilter : EFilter) (raw : List Str) :
    Except (List Str × PyErr) (List Row) :=
  match proc_row sid raw with
  | .error e => .error (raw, e)
  | .ok none => .ok []
  | .ok (some r) => if filter_skip efilter r then .ok [] else .ok [r]

/-- Embedding of the per-profile part of `read_profiles`: the row loop of
one stream.  The Python loop appends each kept row to `ret[prof]` left to
right and aborts on the first raised exception; the recursion below is the
same computation with the first row's contribution prepended to the rest. -/
def read_stream (sid : Option Str) (efilter : EFilter) :
    List (List Str) → Except (List Str × PyErr) (List Row)
  | [] => .ok []
  | raw :: rest =>
    match read_row sid efilter raw with
    | .error e => .error e
    | .ok rs =>
      match read_stream sid efilter rest with
      | .error e => .error e
      | .ok l => .ok (rs ++ l)

/-- Embedding of `read_profiles` (profile.py lines 235-319).  A profile is
given as its stream name together with its CSV rows (`csv.reader` output;
the plain comma-split of each line, faithful for quote-free rows).  On a
parse failure the original exception propagates out of the whole call —
the error value carries the failing stream's name and the offending row,
which the source prints before re-raising — and no result mapping is
returned. -/
def read_profiles (profiles : List (Str × List (List Str))) (sid : Option Str)
    (efilter : EFilter) : Except (Str × List Str × PyErr) (List (Str × List Row)) :=
  match profiles with
  | [] => .ok []
  | p :: rest =>
    match read_stream sid efilter p.2 with
    | .error (raw, e) => .error (p.1, raw, e)
    | .ok rows =>
      match read_profiles rest sid efilter with
      | .error err => .error err
      | .ok m => .ok ((p.1, rows) :: m)

/-- Arguments of one `Profiler.prof` call (a single uid; the list-uid
expansion recurses into single calls). -/
structure ProfEvent where
  timestamp : ℚ
  event : Str
  comp : Str
  uid : Str
  state : Str
  msg : Str
deriving DecidableEq, Repr

/-- Embedding of the format string of `Profiler.prof` (profile.py line
180): `"%.4f,%s,%s,%s,%s,%s" % (timestamp, event, comp, uid, state, msg)`. -/
def prof_line (e : ProfEvent) : Str :=
  fmt4 e.timestamp ++ ',' :: (e.event ++ ',' :: (e.comp ++ ',' :: (e.uid
    ++ ',' :: (e.state ++ ',' :: e.msg))))

/-- The lines appended to a profile by a sequence of `Profiler.prof`
calls. -/
def prof_lines (events : List ProfEvent) : List Str :=
  events.map prof_line

/-- The parsed row the reader is expected to produce from one recorded
event (time kept exactly, entity derived from the uid's prefix before the
first dot). -/
def expectedRow (sid : Option Str) (e : ProfEvent) : Row :=
  if e.uid ≠ [] then
    ⟨e.timestamp, e.event, e.comp, e.uid, e.state, e.msg,
      e.uid.takeWhile (fun c => ¬ c = '.')⟩
  else
    ⟨e.timestamp, e.event, e.comp, sid.getD [], e.state, e.msg, sessionStr⟩

/-- The closing event string `'END'`. -/
def endStr : Str := ['E','N','D']

/-- The sync mode string `'sys'`. -/
def sysStr : Str := ['s','y','s']

/-- State of the first loop of `combine_profiles` (profile.py lines
342-393): per-host offsets `t_host`, session start `t_min`, and the
`accuracy` measure. -/
structure SyncState where
  t_host : List (Str × ℚ)
  t_min : Option ℚ
  accuracy : ℚ
deriving DecidableEq, Repr

/-- Lookup in the association-list model of the Python dict `t_host`. -/
def lookupA (m : List (Str × ℚ)) (k : Str) : Option ℚ :=
  match m.find? (fun kv => decide (kv.1 = k)) with
  | some kv => some kv.2
  | none => none

/-- Update in the association-list model of the Python dict `t_host`. -/
def insertA (m : List (Str × ℚ)) (k : Str) (v : ℚ) : List (Str × ℚ) :=
  match m with
  | [] => [(k, v)]
  | kv :: rest => if kv.1 = k then (k, v) :: rest else kv :: insertA rest k v

/-- Embedding of `if t_min: t_min = min(t_min, t_prof) else: t_min =
t_prof` (profile.py lines 367-368).  Python truthiness makes both `None`
and `0.0` take the `else` branch. -/
def pyMinUpdate (tmin : Option ℚ) (t : ℚ) : Option ℚ :=
  match tmin with
  | some m => if m ≠ 0 then some (min m t) else some t
  | none => some t

/-- One iteration of the first loop of `combine_profiles` over one profile
(profile.py lines 350-393): skip empty profiles and profiles whose first
message is empty or has no `':'`; split the sync message into exactly five
fields (a `ValueError` otherwise); update `t_min`; skip `sys`-mode
profiles; convert the two clock readings (a `ValueError` if non-numeric);
on a later differing offset for a known host only update `accuracy` with
the signed difference, otherwise store the offset.  The
`NTP_DIFF_WARN_LIMIT` warning print changes no state and is not modelled. -/
def sync_step (st : SyncState) : Str × List Row → Except PyErr SyncState
  | (_, []) => .ok st
  | (_, r0 :: _) =>
    if r0.msg = [] ∨ ¬ (':' ∈ r0.msg) then .ok st
    else
      let t_prof := r0.time
      match splitOnChar ':' r0.msg with
      | [host, ip, t_sys, t_ntp, t_mode] =>
        let host_id := host ++ ':' :: ip
        let tmin := pyMinUpdate st.t_min t_prof
        if t_mode = sysStr then .ok { st with t_min := tmin }
        else
          match pyFloat t_sys, pyFloat t_ntp with
          | some s, some n =>
            let t_off := s - n
            match lookupA st.t_host host_id with
            | some kept =>
              if kept ≠ t_off then
                .ok { st with t_min := tmin,
                              accuracy := max st.accuracy (t_off - kept) }
              else .ok { st with t_min := tmin,
                                 t_host := insertA st.t_host host_id t_off }
            | none => .ok { st with t_min := tmin,
                                    t_host := insertA st.t_host host_id t_off }
          | _, _ => .error .valueError
      | _ => .error .valueError

/-- The first loop of `combine_profiles`. -/
def sync_scan (profs : List (Str × List Row)) : Except PyErr SyncState :=
  profs.foldlM sync_step ⟨[], none, 0⟩

/-- State of the second loop of `combine_profiles` (profile.py lines
396-437): the growing global profile, the `c_end` counter (initialised
once, before the loop over profiles), the names of profiles reported as
not correctly closed, and the post-call contents of the input profiles
(the loop mutates rows in place). -/
structure MergeState where
  p_glob : List Row
  c_end : Nat
  warns : List Str
  post : List (Str × List Row)
deriving DecidableEq, Repr

/-- One iteration of the second loop of `combine_profiles` over one
profile (profile.py lines 399-437): empty profiles and profiles with an
empty first message are skipped (their records never reach the global
profile); a nonempty first message must split into exactly five fields (a
`ValueError` otherwise); every row's time is corrected in place by
`t_min` (a `TypeError` if `t_min` is still `None`) and by the host's
offset (`0.0` for a host absent from `t_host`, the profile being recorded
as unsynced); `END` events are counted into the shared `c_end`; after the
profile is appended, the profile is flagged when the shared counter —
not a per-profile count — is zero. -/
def merge_step (t_host : List (Str × ℚ)) (t_min : Option ℚ) (st : MergeState) :
    Str × List Row → Except PyErr MergeState
  | (name, []) => .ok { st with post := st.post ++ [(name, [])] }
  | (name, r0 :: rest) =>
    if r0.msg = [] then .ok { st with post := st.post ++ [(name, r0 :: rest)] }
    else
      match splitOnChar ':' r0.msg with
      | [host, ip, _, _, _] =>
        let host_id := host ++ ':' :: ip
        let t_off := (lookupA t_host host_id).getD 0
        match t_min with
        | none => .error .typeError
        | some tm =>
          let corrected := (r0 :: rest).map (fun r => { r with time := r.time - tm - t_off })
          let cend := st.c_end + (r0 :: rest).countP (fun r => decide (r.event = endStr))
          let warns := if cend = 0 then st.warns ++ [name] else st.warns
          .ok ⟨st.p_glob ++ corrected, cend, warns, st.post ++ [(name, corrected)]⟩
      | _ => .error .valueError

/-- Embedding of Python's stable `sorted(..., key=lambda k: k[TIME])`:
insertion sort by time is stable (equal-time rows keep their relative
order). -/
def sortProf (l : List Row) : List Row :=
  l.insertionSort (fun a b => a.time ≤ b.time)

/-- Embedding of `combine_profiles` (profile.py lines 324-446).  Besides
the returned pair `[p_glob, accuracy]`, the model exposes two further
observations of the call: the post-call contents of the input profiles
(the source corrects rows in place, mutating its input) and the list of
profiles reported as "not correctly closed". -/
def combine_profiles (profs : List (Str × List Row)) :
    Except PyErr (List Row × ℚ × List (Str × List Row) × List Str) :=
  match sync_scan profs with
  | .error e => .error e
  | .ok sst =>
    match profs.foldlM (merge_step sst.t_host sst.t_min) ⟨[], 0, [], []⟩ with
    | .error e => .error e
    | .ok mst => .ok (sortProf mst.p_glob, sst.accuracy, mst.post, mst.warns)

section ConcreteInputs

/-- Sample sync message `h:i:1:0:ntp` (host `h`, ip `i`, offset `1.0`). -/
def ntpMsg1 : Str := ['h',':','i',':','1',':','0',':','n','t','p']

/-- Sample sync message `h:i:5:0:ntp` (host `h`, ip `i`, offset `5.0`). -/
def ntpMsg5 : Str := ['h',':','i',':','5',':','0',':','n','t','p']

/-- Sample sync message `h:i:3:0:ntp` (host `h`, ip `i`, offset `3.0`). -/
def ntpMsg3 : Str := ['h',':','i',':','3',':','0',':','n','t','p']

/-- Sample non-END event name. -/
def evStr : Str := ['e','v']

/-- Builder for sample parsed rows (component `c`, uid `u`, empty state). -/
def mRow (t : ℚ) (ev ms : Str) : Row := ⟨t, ev, ['c'], ['u'], [], ms, ['u']⟩

/-- Two parsed streams: `a` synced with offset 1 and first time 10;
`b` with an empty first message and first time 5. -/
def c1profs : List (Str × List Row) :=
  [(['a'], [mRow 10 evStr ntpMsg1]), (['b'], [mRow 5 evStr []])]

/-- Two parsed streams on the same host whose sync messages report the
differing offsets 5 and then 3. -/
def c2profs : List (Str × List Row) :=
  [(['a'], [mRow 10 endStr ntpMsg5]), (['b'], [mRow 11 endStr ntpMsg3])]

/-- Same shape as `c2profs`, for the merge-order claim: same host, first
offset 5, second offset 3. -/
def c8profs : List (Str × List Row) :=
  [(['a'], [mRow 10 endStr ntpMsg5]), (['b'], [mRow 11 endStr ntpMsg3])]

/-- Two parsed streams: `a` synced, `b` with an empty first message. -/
def c3profs : List (Str × List Row) :=
  [(['a'], [mRow 10 evStr ntpMsg1]), (['b'], [mRow 5 evStr []])]

/-- A single synced parsed stream with first time 10 and offset 1. -/
def c4profs : List (Str × List Row) :=
  [(['a'], [mRow 10 evStr ntpMsg1])]

/-- Two synced parsed streams: `a` contains an `END` record, `b` does
not. -/
def c5profs : List (Str × List Row) :=
  [(['a'], [mRow 10 endStr ntpMsg1]), (['b'], [mRow 11 evStr ntpMsg1])]

end ConcreteInputs

/-- Claim C1, counterexample.  The claim computes `t_min` as the minimum
over all streams of the first record's time; on `c1profs` that minimum is
5 (stream `b`), so the corrected time of stream `a`'s record would be
`10 - 5 - 1 = 4`.  The code, however, only lets streams whose first
message contains a `':'` contribute to `t_min`, so `t_min = 10` and the
only record of the returned timeline (stream `b`'s record is dropped
entirely) has corrected time `-1`. -/
theorem c1_counterexample :
    (combine_profiles c1profs).map (fun r => r.1.map Row.time) = Except.ok [-1]
    ∧ ((10 : ℚ) - 5 - 1 ≠ -1) := by
  constructor
  · with_unfolding_all decide
  · norm_num

/-- Claim C2, counterexample.  On `c2profs` the kept (first-seen) offset
for host `h:i` is 5 and the later disagreeing estimate is 3; the claim
demands `accuracy = |3 - 5| = 2`, but the code computes
`max(accuracy, t_off - kept) = max(0, -2) = 0`: a smaller new offset is
skipped by the signed comparison. -/
theorem c2_counterexample :
    (combine_profiles c2profs).map (fun r => r.2.1) = Except.ok 0
    ∧ |(3 : ℚ) - 5| ≠ 0 := by
  constructor
  · with_unfolding_all decide
  · norm_num

/-- Claim C3, counterexample.  Stream `b` of `c3profs` has an empty first
message.  The claim says its records are still included in the merged
timeline with correction 0.0; the code skips the stream entirely in the
correction loop, so the returned timeline contains only stream `a`'s
record (uid lists shown), not stream `b`'s. -/
theorem c3_counterexample :
    (combine_profiles c3profs).map (fun r => r.1.length) = Except.ok 1
    ∧ (c3profs.map (fun p => p.2.length)).sum = 2 := by
  constructor
  · with_unfolding_all decide
  · with_unfolding_all decide

/-- Claim C4, counterexample.  After `combine_profiles c4profs` the
post-call state of the input stream `a` holds the corrected time `-1`
in place of the original `10`: the merger mutates its input records. -/
theorem c4_counterexample :
    (combine_profiles c4profs).map (fun r => r.2.2.1.map (fun p => p.2.map Row.time))
      = Except.ok [[-1]]
    ∧ c4profs.map (fun p => p.2.map Row.time) = [[10]]
    ∧ (([[-1]] : List (List ℚ)) ≠ [[10]]) := by
  refine ⟨by with_unfolding_all decide, by with_unfolding_all decide, by norm_num⟩

/-- Claim C5: END records are in fact counted in a single counter shared
across streams, not per stream.  On `c5profs` stream `b` contains zero
`END` records (second conjunct), yet the code reports no stream as not
properly closed (first conjunct): the counter is already 1 from stream
`a` when stream `b` is checked.  The commented-out per-profile
`closed %d times` diagnostic in the source shows the counter was meant to
be per profile. -/
theorem c5_end_counter_global :
    (combine_profiles c5profs).map (fun r => r.2.2.2) = Except.ok []
    ∧ (c5profs.getD 1 ([], [])).2.countP (fun r => decide (r.event = endStr)) = 0 := by
  constructor
  · with_unfolding_all decide
  · with_unfolding_all decide

/-- Claim C8, counterexample.  `c8profs` and its reversal are permutations
of each other, yet the merge returns accuracy 0 for one order and 2 for
the other (the kept first-seen offset differs), so the merge is not
order-independent. -/
theorem c8_counterexample :
    (combine_profiles c8profs).map (fun r => r.2.1) = Except.ok 0
    ∧ (combine_profiles c8profs.reverse).map (fun r => r.2.1) = Except.ok 2
    ∧ List.Perm c8profs c8profs.reverse
    ∧ ((0 : ℚ) ≠ 2) := by
  refine ⟨by with_unfolding_all decide, by with_unfolding_all decide,
    (List.reverse_perm c8profs).symm, by norm_num⟩

/-- Raw CSV row whose mandatory time field `xx` is not numeric. -/
def badRow : List Str := [['x','x'], ['e','v'], ['c'], ['u','.','7'], [], []]

/-- Raw CSV row that parses fine (time `1.5`). -/
def goodRow : List Str := [['1','.','5'], ['e','v'], ['c'], ['u','.','7'], [], []]

/-- Reader input with one well-formed stream `a` and one stream `b`
containing an unparsable time field. -/
def c6profs : List (Str × List (List Str)) := [(['a'], [goodRow]), (['b'], [badRow])]

/-- Claim C6, counterexample.  The parse failure in stream `b` makes the
whole `read_profiles` call raise (the underlying `ValueError`, tagged with
the stream identity and row it prints): no result at all is produced, in
particular stream `a`'s parsed rows — which on their own parse fine
(second conjunct) — are not returned, so the failure is not isolated to
stream `b`. -/
theorem c6_counterexample :
    read_profiles c6profs none [] = Except.error (['b'], badRow, PyErr.valueError)
    ∧ read_profiles [(['a'], [goodRow])] none []
        = Except.ok [(['a'], [⟨3/2, ['e','v'], ['c'], ['u','.','7'], [], [], ['u']⟩])] := by
  constructor
  · with_unfolding_all decide
  · with_unfolding_all decide

/-- Event recorded at timestamp `0.00001`, below the `%.4f` resolution. -/
def c7ev : ProfEvent := ⟨1/100000, ['e','v'], ['c'], ['u','.','1'], [], ['m']⟩

/-- Claim C7, counterexample.  The recorder writes timestamps through
`'%.4f'`, so an event recorded at `0.00001` is written as `0.0000` and
read back with time `0.0`: the reader does not reproduce the recorded
sequence exactly. -/
theorem c7_counterexample :
    read_stream none [] ((prof_lines [c7ev]).map (splitOnChar ','))
      = Except.ok [⟨0, ['e','v'], ['c'], ['u','.','1'], [], ['m'], ['u']⟩]
    ∧ ((0 : ℚ) ≠ 1/100000) := by
  constructor
  · with_unfolding_all decide
  · norm_num

section FilterLemmas

/-- Inner filter loop: folding `if match then skip := True` over patterns
computes the disjunction with the incoming flag. -/
theorem foldl_if_or {α : Type} (m : α → Bool) :
    ∀ (l : List α) (s : Bool),
      l.foldl (fun s2 x => if m x then true else s2) s = (s || l.any m) := by
  intro l
  induction l with
  | nil => intro s; simp
  | cons x xs ih =>
    intro s
    rw [List.foldl_cons, ih]
    by_cases h : m x = true
    · simp [h]
    · simp only [Bool.not_eq_true] at h
      simp [h]

/-- Outer filter loop: `filter_skip` decides whether some filtered field
matches some of its patterns. -/
theorem filter_skip_eq_any (efilter : EFilter) (r : Row) :
    filter_skip efilter r
      = efilter.any (fun fp => fp.2.any (fun pat => isSubstr pat (getField r fp.1))) := by
  unfold filter_skip
  suffices h : ∀ (l : EFilter) (s : Bool),
      l.foldl (fun skip fp =>
        fp.2.foldl (fun s2 pat => if isSubstr pat (getField r fp.1) then true else s2) skip) s
      = (s || l.any (fun fp => fp.2.any (fun pat => isSubstr pat (getField r fp.1)))) by
    rw [h efilter false]
    simp
  intro l
  induction l with
  | nil => intro s; simp
  | cons fp fps ih =>
    intro s
    rw [List.foldl_cons, foldl_if_or, ih]
    simp [Bool.or_assoc]

end FilterLemmas

/-- Claim C9: exclusion-filter semantics.  For every filter and every row
that the reader parsed successfully, the row is dropped from the output
(`read_row` returns the empty contribution) exactly when some filtered
field's value contains — as a substring, witnessed by an explicit
decomposition — at least one of that field's configured patterns, and is
kept (returned unchanged) otherwise. -/
theorem c9_filter_semantics (sid : Option Str) (efilter : EFilter)
    (raw : List Str) (r : Row) (hp : proc_row sid raw = .ok (some r)) :
    (read_row sid efilter raw = .ok []
      ↔ ∃ fp ∈ efilter, ∃ pat ∈ fp.2, ∃ a b, getField r fp.1 = a ++ pat ++ b)
    ∧ (read_row sid efilter raw = .ok [r]
      ↔ ¬ ∃ fp ∈ efilter, ∃ pat ∈ fp.2, ∃ a b, getField r fp.1 = a ++ pat ++ b) := by
  have hmatch : filter_skip efilter r = true
      ↔ ∃ fp ∈ efilter, ∃ pat ∈ fp.2, ∃ a b, getField r fp.1 = a ++ pat ++ b := by
    rw [filter_skip_eq_any, List.any_eq_true]
    constructor
    · rintro ⟨fp, hfp, hin⟩
      rw [List.any_eq_true] at hin
      rcases hin with ⟨pat, hpat, hsub⟩
      exact ⟨fp, hfp, pat, hpat, (isSubstr_iff pat _).mp hsub⟩
    · rintro ⟨fp, hfp, pat, hpat, a, b, hab⟩
      refine ⟨fp, hfp, ?_⟩
      rw [List.any_eq_true]
      exact ⟨pat, hpat, (isSubstr_iff pat _).mpr ⟨a, b, hab⟩⟩
  have hrr : read_row sid efilter raw
      = if filter_skip efilter r = true then Except.ok [] else Except.ok [r] := by
    unfold read_row
    rw [hp]
  by_cases hs : filter_skip efilter r = true
  · rw [hrr, if_pos hs]
    constructor
    · exact ⟨fun _ => hmatch.mp hs, fun _ => rfl⟩
    · constructor
      · intro hcon
        have h1 : ([] : List Row) = [r] := Except.ok.inj hcon
        exact absurd h1.symm (List.cons_ne_nil r [])
      · intro hcon
        exact absurd (hmatch.mp hs) hcon
  · rw [hrr, if_neg hs]
    have hm : ¬ ∃ fp ∈ efilter, ∃ pat ∈ fp.2, ∃ a b, getField r fp.1 = a ++ pat ++ b := by
      intro hcon
      exact hs (hmatch.mpr hcon)
    constructor
    · constructor
      · intro hcon
        have h1 : ([r] : List Row) = [] := Except.ok.inj hcon
        exact absurd h1 (List.cons_ne_nil r [])
      · intro hcon
        exact absurd hcon hm
    · exact ⟨fun _ => hm, fun _ => rfl⟩

/-- Witness for claim C9 at a concrete input: the parsed row of `goodRow`
has event `ev`; with a filter banning the substring `e` on the event
field the row is dropped, and the matching decomposition exists. -/
theorem c9_witness :
    (read_row none [(PField.event, [['e']])] goodRow = .ok []
      ↔ ∃ fp ∈ [(PField.event, [['e']])], ∃ pat ∈ fp.2, ∃ a b,
          getField ⟨3/2, ['e','v'], ['c'], ['u','.','7'], [], [], ['u']⟩ fp.1 = a ++ pat ++ b)
    ∧ (read_row none [(PField.event, [['e']])] goodRow
        = .ok [⟨3/2, ['e','v'], ['c'], ['u','.','7'], [], [], ['u']⟩]
      ↔ ¬ ∃ fp ∈ [(PField.event, [['e']])], ∃ pat ∈ fp.2, ∃ a b,
          getField ⟨3/2, ['e','v'], ['c'], ['u','.','7'], [], [], ['u']⟩ fp.1 = a ++ pat ++ b) :=
  c9_filter_semantics none [(PField.event, [['e']])] goodRow
    ⟨3/2, ['e','v'], ['c'], ['u','.','7'], [], [], ['u']⟩ (by with_unfolding_all decide)

/-- Claim C10: when `read_profiles` is called without a session id
(`sid = None`), any non-header data row whose uid field is empty has its
uid replaced by `None`, so the per-row non-`None` assertion fails with an
`AssertionError`, and the read of the stream containing that row aborts
(the error propagates out of the stream's row loop immediately,
regardless of any later rows). -/
theorem c10_empty_uid_assert (efilter : EFilter) (f0 ev co st ms : Str)
    (rest : List (List Str)) (t : ℚ)
    (hhead : f0.head? ≠ some '#') (ht : pyFloat f0 = some t) :
    proc_row none [f0, ev, co, [], st, ms] = .error .assertionError
    ∧ read_stream none efilter ([f0, ev, co, [], st, ms] :: rest)
        = .error ([f0, ev, co, [], st, ms], .assertionError) := by
  have hproc : proc_row none [f0, ev, co, [], st, ms] = .error .assertionError := by
    simp only [proc_row, ht]
    rw [if_neg hhead]
    rfl
  refine ⟨hproc, ?_⟩
  have hrow : read_row none efilter [f0, ev, co, [], st, ms]
      = .error ([f0, ev, co, [], st, ms], .assertionError) := by
    unfold read_row
    rw [hproc]
  unfold read_stream
  rw [hrow]

/-- Witness for claim C10 at a concrete input: the data row
`1,ev,c,,,m` with an empty uid and no session id. -/
theorem c10_witness :
    proc_row none [['1'], ['e','v'], ['c'], [], [], ['m']] = .error .assertionError
    ∧ read_stream none [] ([['1'], ['e','v'], ['c'], [], [], ['m']] :: [])
        = .error ([['1'], ['e','v'], ['c'], [], [], ['m']], .assertionError) :=
  c10_empty_uid_assert [] ['1'] ['e','v'] ['c'] [] ['m'] [] 1
    (by decide) (by with_unfolding_all decide)

section RoundTrip

/-- The characters Python's `csv` default dialect treats specially inside
a field: the delimiter `,`, the quote character `"` (code 34), and the
record separators LF (10) and CR (13).  Every other character is passed
through verbatim by `csv.reader`, so on fields avoiding these four the
parse of a written line is exactly the comma split. -/
def csvSpecial : List Char := [',', Char.ofNat 34, Char.ofNat 10, Char.ofNat 13]

/-- A field `csv.reader` reads back exactly as written: it contains none
of the delimiter, quote and record-separator characters. -/
def csvPlain (f : Str) : Bool :=
  f.all (fun c => decide (c ∉ csvSpecial))

/-- A csv-plain field contains no comma. -/
theorem csvPlain_comma {f : Str} (h : csvPlain f = true) : ',' ∉ f := by
  intro hmem
  have h2 := List.all_eq_true.mp h ',' hmem
  exact (of_decide_eq_true h2) (by decide)

/-- Characters of a well-formatted time are digits, the decimal dot or a
leading minus, so never a comma. -/
theorem fmt4_no_comma {t : ℚ} (hd : (t * 10000).den = 1) :
    ',' ∉ fmt4 t := by
  rw [fmt4_shape hd]
  intro hmem
  rcases List.mem_append.mp hmem with h0 | h1
  · revert h0
    split <;> decide
  · rcases List.mem_append.mp h1 with h2 | h2
    · exact (isDigit_ne (natStr_digits h2)).2.1 rfl
    · rcases List.mem_cons.mp h2 with h3 | h3
      · exact absurd h3.symm (by decide)
      · exact (isDigit_ne (pad4_digits h3)).2.1 rfl

/-- A well-formatted time does not start with the comment marker. -/
theorem fmt4_head_ne_hash {t : ℚ} (hd : (t * 10000).den = 1) :
    (fmt4 t).head? ≠ some '#' := by
  rw [fmt4_shape hd]
  by_cases hneg : (t * 10000).num < 0
  · rw [if_pos hneg, List.singleton_append]
    simp only [List.head?_cons, ne_eq, Option.some.injEq]
    decide
  · rw [if_neg hneg, List.nil_append]
    cases hns : natStr ((t * 10000).num.natAbs / 10000) with
    | nil => exact absurd hns (natStr_ne_nil _)
    | cons c cs =>
      have hc : c.isDigit = true := natStr_digits (hns ▸ List.mem_cons_self c cs)
      simp only [List.cons_append, List.head?_cons, ne_eq, Option.some.injEq]
      intro hcon
      exact (isDigit_ne hc).2.2.1 hcon

/-- The comma-split of a recorded line recovers the six written fields,
provided no field contains a comma. -/
theorem prof_line_split (e : ProfEvent)
    (hd : (e.timestamp * 10000).den = 1)
    (hev : ',' ∉ e.event) (hco : ',' ∉ e.comp) (hui : ',' ∉ e.uid)
    (hst : ',' ∉ e.state) (hms : ',' ∉ e.msg) :
    splitOnChar ',' (prof_line e)
      = [fmt4 e.timestamp, e.event, e.comp, e.uid, e.state, e.msg] := by
  unfold prof_line
  rw [splitOnChar_append _ (fmt4_no_comma hd),
      splitOnChar_append _ hev,
      splitOnChar_append _ hco,
      splitOnChar_append _ hui,
      splitOnChar_append _ hst,
      splitOnChar_of_not_mem hms]

/-- Parsing of a six-field data row with a nonempty uid. -/
theorem proc_row_six (sid : Option Str) (f0 ev co st ms : Str) (u0 : Char)
    (us : Str) (t : ℚ) (hhead : f0.head? ≠ some '#') (hfl : pyFloat f0 = some t) :
    proc_row sid [f0, ev, co, u0 :: us, st, ms]
      = .ok (some ⟨t, ev, co, u0 :: us, st, ms,
          (u0 :: us).takeWhile (fun c => ¬ c = '.')⟩) := by
  simp only [proc_row, hfl]
  rw [if_neg hhead]
  rfl

/-- One recorded event is read back as one row: exact time, the five
string fields as written, entity derived from the uid prefix. -/
theorem read_row_prof_line (sid : Option Str) (efilter : EFilter) (e : ProfEvent)
    (hd : (e.timestamp * 10000).den = 1) (hu : e.uid ≠ [])
    (hev : ',' ∉ e.event) (hco : ',' ∉ e.comp) (hui : ',' ∉ e.uid)
    (hst : ',' ∉ e.state) (hms : ',' ∉ e.msg)
    (hkeep : filter_skip efilter (expectedRow sid e) = false) :
    read_row sid efilter (splitOnChar ',' (prof_line e))
      = .ok [expectedRow sid e] := by
  obtain ⟨u0, us, huu⟩ : ∃ u0 us, e.uid = u0 :: us := by
    cases hueq : e.uid with
    | nil => exact absurd hueq hu
    | cons a b => exact ⟨a, b, rfl⟩
  have hexp : expectedRow sid e
      = ⟨e.timestamp, e.event, e.comp, e.uid, e.state, e.msg,
          e.uid.takeWhile (fun c => ¬ c = '.')⟩ := by
    unfold expectedRow
    rw [if_pos hu]
  have hproc : proc_row sid [fmt4 e.timestamp, e.event, e.comp, e.uid, e.state, e.msg]
      = .ok (some (expectedRow sid e)) := by
    rw [hexp, huu]
    exact proc_row_six sid (fmt4 e.timestamp) e.event e.comp e.state e.msg u0 us
      e.timestamp (fmt4_head_ne_hash hd) (pyFloat_fmt4 hd)
  rw [prof_line_split e hd hev hco hui hst hms]
  unfold read_row
  rw [hproc]
  show (if filter_skip efilter (expectedRow sid e) = true
      then (Except.ok [] : Except (List Str × PyErr) (List Row))
      else Except.ok [expectedRow sid e])
    = Except.ok [expectedRow sid e]
  rw [hkeep]
  rfl

/-- Reading back a sequence of recorded lines yields the per-event rows
in order. -/
theorem read_stream_map (sid : Option Str) (efilter : EFilter) :
    ∀ (events : List ProfEvent),
      (∀ e ∈ events, read_row sid efilter (splitOnChar ',' (prof_line e))
        = .ok [expectedRow sid e]) →
      read_stream sid efilter ((prof_lines events).map (splitOnChar ','))
        = .ok (events.map (expectedRow sid)) := by
  intro events
  induction events with
  | nil => intro h; rfl
  | cons e es ih =>
    intro h
    simp only [prof_lines, List.map_cons]
    unfold read_stream
    rw [h e (List.mem_cons_self e es)]
    have hrest := ih (fun x hx => h x (List.mem_cons_of_mem e hx))
    simp only [prof_lines] at hrest
    rw [hrest]
    rfl

end RoundTrip

/-- Claim C7 (amended): the reader reproduces the recorded sequence
exactly — same order, time preserved, other fields as the written strings,
entity derived from the uid prefix — for every sequence of events whose
timestamps (of either sign) are exactly representable at the recorder's
`%.4f` resolution, whose uid is nonempty, and whose string fields contain
none of the characters the CSV layer treats specially (the delimiter `,`,
the quote character, CR and LF: on such fields `csv.reader` returns the
written line's comma split verbatim).  Outside those conditions the round
trip can fail: times are rounded to 4 decimals, a comma inside a field
shifts the CSV split, a quote character is consumed by the CSV quoting
rules, a newline inside a field splits the record, and an empty uid is
replaced by the session id. -/
theorem c7_roundtrip (sid : Option Str) (events : List ProfEvent)
    (h : ∀ e ∈ events, (e.timestamp * 10000).den = 1 ∧ e.uid ≠ []
      ∧ csvPlain e.event = true ∧ csvPlain e.comp = true ∧ csvPlain e.uid = true
      ∧ csvPlain e.state = true ∧ csvPlain e.msg = true) :
    read_stream sid [] ((prof_lines events).map (splitOnChar ','))
      = .ok (events.map (expectedRow sid)) := by
  apply read_stream_map
  intro e he
  obtain ⟨h1, h2, h3, h4, h5, h6, h7⟩ := h e he
  exact read_row_prof_line sid [] e h1 h2 (csvPlain_comma h3) (csvPlain_comma h4)
    (csvPlain_comma h5) (csvPlain_comma h6) (csvPlain_comma h7) rfl

/-- Witness for claim C7 at a concrete input: one event recorded at time
`1.5` with uid `u.9` is read back exactly. -/
theorem c7_witness :
    read_stream none []
        ((prof_lines [⟨3/2, ['e','v'], ['c'], ['u','.','9'], [], ['m']⟩]).map
          (splitOnChar ','))
      = .ok ([(⟨3/2, ['e','v'], ['c'], ['u','.','9'], [], ['m']⟩ : ProfEvent)].map
          (expectedRow none)) :=
  c7_roundtrip none [⟨3/2, ['e','v'], ['c'], ['u','.','9'], [], ['m']⟩]
    (by with_unfolding_all decide)

/-- Claim C6 (amended): a parse failure is not isolated to one stream.
If some stream's rows fail to parse while all streams before it parse
fine, the whole `read_profiles` call raises: it returns the failure —
carrying the failing stream's name and the offending row, which the
source prints before re-raising the original exception — and produces no
result mapping for any stream, including the ones already parsed. -/
theorem c6_parse_failure_aborts_call (sid : Option Str) (efilter : EFilter)
    (l1 l2 : List (Str × List (List Str))) (p : Str × List (List Str))
    (raw : List Str) (e : PyErr)
    (h1 : ∀ q ∈ l1, ∃ rows, read_stream sid efilter q.2 = .ok rows)
    (hp : read_stream sid efilter p.2 = .error (raw, e)) :
    read_profiles (l1 ++ p :: l2) sid efilter = .error (p.1, raw, e) := by
  induction l1 with
  | nil =>
    simp only [List.nil_append]
    unfold read_profiles
    rw [hp]
  | cons q l1 ih =>
    obtain ⟨rows, hq⟩ := h1 q (List.mem_cons_self q l1)
    have hrec := ih (fun x hx => h1 x (List.mem_cons_of_mem q hx))
    simp only [List.cons_append]
    unfold read_profiles
    rw [hq, hrec]

/-- Witness for claim C6 at a concrete input: with stream `a` parsing
fine and stream `b` holding a bad time field, the whole call returns the
error tagged with `b` and the bad row. -/
theorem c6_witness :
    read_profiles ([(['a'], [goodRow])] ++ (['b'], [badRow]) :: []) none []
      = .error (['b'], badRow, PyErr.valueError) :=
  c6_parse_failure_aborts_call none [] [(['a'], [goodRow])] [] (['b'], [badRow])
    badRow .valueError
    (fun q hq => by
      rw [List.mem_singleton] at hq
      subst hq
      exact ⟨[⟨3/2, ['e','v'], ['c'], ['u','.','7'], [], [], ['u']⟩],
        by with_unfolding_all decide⟩)
    (by with_unfolding_all decide)

section CombineSpecSide

/-- Default row used only to give `headD` a value on empty streams. -/
def dummyRow : Row := ⟨0, [], [], [], [], [], []⟩

/-- Time of a stream's first record (`prof[0][TIME]`). -/
def firstTime (p : Str × List Row) : ℚ := (p.2.headD dummyRow).time

/-- Message of a stream's first record (`prof[0][MSG]`). -/
def firstMsg (p : Str × List Row) : Str := (p.2.headD dummyRow).msg

/-- The `':'`-split of a stream's sync message. -/
def syncParts (p : Str × List Row) : List Str := splitOnChar ':' (firstMsg p)

/-- The host key `'%s:%s' % (host, ip)` of a stream. -/
def hostIdOf (p : Str × List Row) : Str :=
  match syncParts p with
  | host :: ip :: _ => host ++ ':' :: ip
  | _ => []

/-- The sync mode field of a stream's sync message. -/
def modeOf (p : Str × List Row) : Str := (syncParts p).getD 4 []

/-- The ntp offset `t_sys - t_ntp` encoded in a stream's sync message. -/
def specOff (p : Str × List Row) : ℚ :=
  (pyFloat ((syncParts p).getD 2 [])).getD 0
    - (pyFloat ((syncParts p).getD 3 [])).getD 0

/-- Well-formedness of a parsed stream for the merge: nonempty, positive
first time, sync message with exactly five `':'`-fields, and numeric
clock readings unless the mode is `sys`. -/
def wfStream (p : Str × List Row) : Bool :=
  match p.2 with
  | [] => false
  | r0 :: _ =>
    decide (0 < r0.time) &&
    (match splitOnChar ':' r0.msg with
     | [_, _, s, n, m] =>
       if m = sysStr then true else ((pyFloat s).isSome && (pyFloat n).isSome)
     | _ => false)

/-- The correction `combine_profiles` applies to one stream: every
record's time decreases by `t_min` plus the stream's host offset, `0.0`
when the host has no entry in `t_host`. -/
def corrProf (thost : List (Str × ℚ)) (tm : ℚ) (p : Str × List Row) : List Row :=
  p.2.map (fun r => { r with time := r.time - tm - (lookupA thost (hostIdOf p)).getD 0 })

/-- A five-field split forces a nonempty message containing the
separator. -/
theorem splitOnChar_five {c : Char} {msg a b d e f : Str}
    (h : splitOnChar c msg = [a, b, d, e, f]) : msg ≠ [] ∧ c ∈ msg := by
  constructor
  · intro hmsg
    rw [hmsg] at h
    have := congrArg List.length h
    simp [splitOnChar] at this
  · by_contra hnot
    rw [splitOnChar_of_not_mem hnot] at h
    have := congrArg List.length h
    simp at this

end CombineSpecSide

section StepLemmas

/-- Behaviour of the sync loop on an empty profile. -/
theorem sync_step_empty (st : SyncState) (name : Str) :
    sync_step st (name, []) = .ok st := rfl

/-- Behaviour of the sync loop on a profile with an empty first message. -/
theorem sync_step_nomsg (st : SyncState) (name : Str) (r0 : Row)
    (rest : List Row) (hmsg : r0.msg = []) :
    sync_step st (name, r0 :: rest) = .ok st := by
  simp only [sync_step]
  rw [if_pos (Or.inl hmsg)]

/-- Behaviour of the sync loop on a `sys`-mode profile: only `t_min` is
updated, no offset is recorded. -/
theorem sync_step_sys (st : SyncState) (name : Str) (r0 : Row)
    (rest : List Row) (h i s n : Str)
    (hsplit : splitOnChar ':' r0.msg = [h, i, s, n, sysStr]) :
    sync_step st (name, r0 :: rest)
      = .ok { st with t_min := pyMinUpdate st.t_min r0.time } := by
  obtain ⟨hne, hmem⟩ := splitOnChar_five hsplit
  simp only [sync_step]
  rw [if_neg (by push_neg; exact ⟨hne, hmem⟩), hsplit]
  simp

/-- Behaviour of the sync loop on a non-`sys` profile with numeric clock
readings. -/
theorem sync_step_mode (st : SyncState) (name : Str) (r0 : Row)
    (rest : List Row) (h i s n m : Str) (vs vn : ℚ)
    (hsplit : splitOnChar ':' r0.msg = [h, i, s, n, m]) (hm : m ≠ sysStr)
    (hs : pyFloat s = some vs) (hn : pyFloat n = some vn) :
    sync_step st (name, r0 :: rest)
      = match lookupA st.t_host (h ++ ':' :: i) with
        | some kept =>
          if kept ≠ vs - vn then
            .ok { st with t_min := pyMinUpdate st.t_min r0.time,
                          accuracy := max st.accuracy ((vs - vn) - kept) }
          else
            .ok { st with t_min := pyMinUpdate st.t_min r0.time,
                          t_host := insertA st.t_host (h ++ ':' :: i) (vs - vn) }
        | none =>
          .ok { st with t_min := pyMinUpdate st.t_min r0.time,
                        t_host := insertA st.t_host (h ++ ':' :: i) (vs - vn) } := by
  obtain ⟨hne, hmem⟩ := splitOnChar_five hsplit
  simp only [sync_step]
  rw [if_neg (by push_neg; exact ⟨hne, hmem⟩), hsplit]
  simp only [if_neg hm, hs, hn]

/-- Non-`sys` sync step when the host already has an offset entry. -/
theorem sync_step_mode_found (st : SyncState) (name : Str) (r0 : Row)
    (rest : List Row) (h i s n m : Str) (vs vn kept : ℚ)
    (hsplit : splitOnChar ':' r0.msg = [h, i, s, n, m]) (hm : m ≠ sysStr)
    (hs : pyFloat s = some vs) (hn : pyFloat n = some vn)
    (hlk : lookupA st.t_host (h ++ ':' :: i) = some kept) :
    sync_step st (name, r0 :: rest)
      = if kept ≠ vs - vn then
          .ok { st with t_min := pyMinUpdate st.t_min r0.time,
                        accuracy := max st.accuracy ((vs - vn) - kept) }
        else
          .ok { st with t_min := pyMinUpdate st.t_min r0.time,
                        t_host := insertA st.t_host (h ++ ':' :: i) (vs - vn) } := by
  rw [sync_step_mode st name r0 rest h i s n m vs vn hsplit hm hs hn, hlk]

/-- Non-`sys` sync step when the host is new: the offset is recorded. -/
theorem sync_step_mode_new (st : SyncState) (name : Str) (r0 : Row)
    (rest : List Row) (h i s n m : Str) (vs vn : ℚ)
    (hsplit : splitOnChar ':' r0.msg = [h, i, s, n, m]) (hm : m ≠ sysStr)
    (hs : pyFloat s = some vs) (hn : pyFloat n = some vn)
    (hlk : lookupA st.t_host (h ++ ':' :: i) = none) :
    sync_step st (name, r0 :: rest)
      = .ok { st with t_min := pyMinUpdate st.t_min r0.time,
                      t_host := insertA st.t_host (h ++ ':' :: i) (vs - vn) } := by
  rw [sync_step_mode st name r0 rest h i s n m vs vn hsplit hm hs hn, hlk]

/-- Behaviour of the merge loop on an empty profile: only recorded in the
post state, untouched. -/
theorem merge_step_empty (thost : List (Str × ℚ)) (tmin : Option ℚ)
    (st : MergeState) (name : Str) :
    merge_step thost tmin st (name, []) = .ok { st with post := st.post ++ [(name, [])] } := rfl

/-- Behaviour of the merge loop on a profile with an empty first message:
skipped, recorded unchanged in the post state. -/
theorem merge_step_nomsg (thost : List (Str × ℚ)) (tmin : Option ℚ)
    (st : MergeState) (name : Str) (r0 : Row) (rest : List Row)
    (hmsg : r0.msg = []) :
    merge_step thost tmin st (name, r0 :: rest)
      = .ok { st with post := st.post ++ [(name, r0 :: rest)] } := by
  simp only [merge_step]
  rw [if_pos hmsg]

/-- Behaviour of the merge loop on a profile with a five-field sync
message: all rows are corrected in place, `END` rows counted into the
shared counter, the warning issued when that shared counter is zero. -/
theorem merge_step_five (thost : List (Str × ℚ)) (tm : ℚ)
    (st : MergeState) (name : Str) (r0 : Row) (rest : List Row)
    (h i s n m : Str) (hsplit : splitOnChar ':' r0.msg = [h, i, s, n, m]) :
    merge_step thost (some tm) st (name, r0 :: rest)
      = .ok ⟨st.p_glob ++ (r0 :: rest).map
              (fun r => { r with time := r.time - tm - (lookupA thost (h ++ ':' :: i)).getD 0 }),
             st.c_end + (r0 :: rest).countP (fun r => decide (r.event = endStr)),
             if st.c_end + (r0 :: rest).countP (fun r => decide (r.event = endStr)) = 0
               then st.warns ++ [name] else st.warns,
             st.post ++ [(name, (r0 :: rest).map
               (fun r => { r with time := r.time - tm - (lookupA thost (h ++ ':' :: i)).getD 0 }))]⟩ := by
  obtain ⟨hne, _⟩ := splitOnChar_five hsplit
  simp only [merge_step]
  rw [if_neg hne, hsplit]

/-- The host key used by the merge loop is `hostIdOf`. -/
theorem hostIdOf_eq (name : Str) (r0 : Row) (rest : List Row)
    (h i s n m : Str) (hsplit : splitOnChar ':' r0.msg = [h, i, s, n, m]) :
    hostIdOf (name, r0 :: rest) = h ++ ':' :: i := by
  unfold hostIdOf syncParts firstMsg
  simp only [List.headD_cons]
  rw [hsplit]

end StepLemmas

section ScanLemmas

/-- Unpacking of the stream well-formedness test. -/
theorem wfStream_shape {p : Str × List Row} (h : wfStream p = true) :
    ∃ name r0 rest, p = (name, r0 :: rest) ∧ 0 < r0.time
      ∧ ∃ hh ii s n m, splitOnChar ':' r0.msg = [hh, ii, s, n, m]
        ∧ (m ≠ sysStr → ∃ vs vn, pyFloat s = some vs ∧ pyFloat n = some vn) := by
  obtain ⟨name, rows⟩ := p
  cases rows with
  | nil => simp [wfStream] at h
  | cons r0 rest =>
    simp only [wfStream, Bool.and_eq_true, decide_eq_true_eq] at h
    obtain ⟨hpos, hrest⟩ := h
    refine ⟨name, r0, rest, rfl, hpos, ?_⟩
    cases hsp : splitOnChar ':' r0.msg with
    | nil => rw [hsp] at hrest; simp at hrest
    | cons a t1 =>
      cases t1 with
      | nil => rw [hsp] at hrest; simp at hrest
      | cons b t2 =>
        cases t2 with
        | nil => rw [hsp] at hrest; simp at hrest
        | cons s t3 =>
          cases t3 with
          | nil => rw [hsp] at hrest; simp at hrest
          | cons n t4 =>
            cases t4 with
            | nil => rw [hsp] at hrest; simp at hrest
            | cons m t5 =>
              cases t5 with
              | cons x t6 => rw [hsp] at hrest; simp at hrest
              | nil =>
                rw [hsp] at hrest
                change (if m = sysStr then true
                  else ((pyFloat s).isSome && (pyFloat n).isSome)) = true at hrest
                refine ⟨a, b, s, n, m, rfl, ?_⟩
                intro hm
                rw [if_neg hm] at hrest
                simp only [Bool.and_eq_true, Option.isSome_iff_exists] at hrest
                obtain ⟨⟨vs, hvs⟩, ⟨vn, hvn⟩⟩ := hrest
                exact ⟨vs, vn, hvs, hvn⟩

/-- A well-formed stream has a positive first-record time. -/
theorem wfStream_pos {p : Str × List Row} (h : wfStream p = true) :
    0 < firstTime p := by
  obtain ⟨name, r0, rest, rfl, hpos, _⟩ := wfStream_shape h
  exact hpos

/-- The sync loop succeeds on a well-formed stream and updates `t_min` by
the Python-truthiness rule. -/
theorem sync_step_wf (st : SyncState) (p : Str × List Row)
    (h : wfStream p = true) :
    ∃ st2, sync_step st p = .ok st2
      ∧ st2.t_min = pyMinUpdate st.t_min (firstTime p) := by
  obtain ⟨name, r0, rest, rfl, hpos, hh, ii, s, n, m, hsplit, hnum⟩ := wfStream_shape h
  by_cases hm : m = sysStr
  · subst hm
    rw [sync_step_sys st name r0 rest hh ii s n hsplit]
    exact ⟨_, rfl, rfl⟩
  · obtain ⟨vs, vn, hs, hn⟩ := hnum hm
    cases hlk : lookupA st.t_host (hh ++ ':' :: ii) with
    | some kept =>
      rw [sync_step_mode_found st name r0 rest hh ii s n m vs vn kept hsplit hm hs hn hlk]
      by_cases hk : kept ≠ vs - vn
      · rw [if_pos hk]
        exact ⟨_, rfl, rfl⟩
      · rw [if_neg hk]
        exact ⟨_, rfl, rfl⟩
    | none =>
      rw [sync_step_mode_new st name r0 rest hh ii s n m vs vn hsplit hm hs hn hlk]
      exact ⟨_, rfl, rfl⟩

/-- The sync loop over well-formed streams succeeds, and its `t_min` is
the left fold of the per-stream update over the first-record times. -/
theorem sync_scan_tmin : ∀ (profs : List (Str × List Row)) (st0 : SyncState),
    (∀ p ∈ profs, wfStream p = true) →
    ∃ st, profs.foldlM sync_step st0 = .ok st
      ∧ st.t_min = profs.foldl (fun o p => pyMinUpdate o (firstTime p)) st0.t_min := by
  intro profs
  induction profs with
  | nil => intro st0 h; exact ⟨st0, rfl, rfl⟩
  | cons p ps ih =>
    intro st0 h
    obtain ⟨st1, hstep, htmin⟩ := sync_step_wf st0 p (h p (List.mem_cons_self p ps))
    obtain ⟨st, hfold, htmin2⟩ := ih st1 (fun q hq => h q (List.mem_cons_of_mem p hq))
    refine ⟨st, ?_, ?_⟩
    · rw [List.foldlM_cons, hstep]
      exact hfold
    · rw [List.foldl_cons, htmin2, htmin]

/-- Fold of the truthiness min update starting from a positive seed: it
computes the genuine minimum of seed and list. -/
theorem foldl_pyMin_some : ∀ (l : List ℚ) (m : ℚ), 0 < m → (∀ t ∈ l, 0 < t) →
    ∃ tm, l.foldl pyMinUpdate (some m) = some tm
      ∧ (∀ x ∈ m :: l, tm ≤ x) ∧ tm ∈ m :: l := by
  intro l
  induction l with
  | nil =>
    intro m hm _
    refine ⟨m, rfl, ?_, List.mem_cons_self m []⟩
    intro x hx
    rw [List.mem_singleton] at hx
    exact le_of_eq hx.symm
  | cons t ts ih =>
    intro m hm hpos
    have hstep : pyMinUpdate (some m) t = some (min m t) := by
      change (if m ≠ 0 then some (min m t) else some t) = some (min m t)
      rw [if_pos (ne_of_gt hm)]
    have htpos : 0 < t := hpos t (List.mem_cons_self t ts)
    obtain ⟨tm, hfold, hle, hmem⟩ := ih (min m t) (lt_min hm htpos)
      (fun x hx => hpos x (List.mem_cons_of_mem t hx))
    refine ⟨tm, ?_, ?_, ?_⟩
    · rw [List.foldl_cons, hstep]
      exact hfold
    · intro x hx
      rcases List.mem_cons.mp hx with rfl | hx2
      · exact le_trans (hle (min x t) (List.mem_cons_self (min x t) ts)) (min_le_left x t)
      · rcases List.mem_cons.mp hx2 with rfl | hx3
        · exact le_trans (hle (min m x) (List.mem_cons_self (min m x) ts)) (min_le_right m x)
        · exact hle x (List.mem_cons_of_mem _ hx3)
    · rcases List.mem_cons.mp hmem with heq | hmem2
      · rcases min_choice m t with hc | hc
        · rw [heq, hc]
          exact List.mem_cons_self m (t :: ts)
        · rw [heq, hc]
          exact List.mem_cons_of_mem m (List.mem_cons_self t ts)
      · exact List.mem_cons_of_mem m (List.mem_cons_of_mem t hmem2)

end ScanLemmas

section MasterLemmas

/-- Characterisation of the `t_min` fold over well-formed streams: it is
the genuine minimum of the first-record times. -/
theorem tmin_char (profs : List (Str × List Row))
    (hwf : ∀ p ∈ profs, wfStream p = true) (hne : profs ≠ []) :
    ∃ tm, profs.foldl (fun o p => pyMinUpdate o (firstTime p)) none = some tm
      ∧ (∀ p ∈ profs, tm ≤ firstTime p) ∧ (∃ p ∈ profs, firstTime p = tm) := by
  cases profs with
  | nil => exact absurd rfl hne
  | cons p ps =>
    have h0 : (fun o q => pyMinUpdate o (firstTime q)) = fun o q => pyMinUpdate o (firstTime q) := rfl
    have hfirst : pyMinUpdate none (firstTime p) = some (firstTime p) := rfl
    have hstep : (p :: ps).foldl (fun o q => pyMinUpdate o (firstTime q)) none
        = ps.foldl (fun o q => pyMinUpdate o (firstTime q)) (some (firstTime p)) := by
      rw [List.foldl_cons, hfirst]
    have hmap : ps.foldl (fun o q => pyMinUpdate o (firstTime q)) (some (firstTime p))
        = (ps.map firstTime).foldl pyMinUpdate (some (firstTime p)) := by
      rw [List.foldl_map]
    obtain ⟨tm, hfold, hle, hmem⟩ := foldl_pyMin_some (ps.map firstTime) (firstTime p)
      (wfStream_pos (hwf p (List.mem_cons_self p ps)))
      (fun t ht => by
        obtain ⟨q, hq, rfl⟩ := List.mem_map.mp ht
        exact wfStream_pos (hwf q (List.mem_cons_of_mem p hq)))
    refine ⟨tm, by rw [hstep, hmap, hfold], ?_, ?_⟩
    · intro q hq
      rcases List.mem_cons.mp hq with rfl | hq2
      · exact hle (firstTime q) (List.mem_cons_self _ _)
      · exact hle (firstTime q) (List.mem_cons_of_mem _ (List.mem_map_of_mem firstTime hq2))
    · rcases List.mem_cons.mp hmem with heq | hmem2
      · exact ⟨p, List.mem_cons_self p ps, heq.symm⟩
      · obtain ⟨q, hq, hqt⟩ := List.mem_map.mp hmem2
        exact ⟨q, List.mem_cons_of_mem p hq, hqt⟩

/-- The merge loop on a well-formed stream: explicit result state. -/
theorem merge_step_wf (thost : List (Str × ℚ)) (tm : ℚ) (st : MergeState)
    (p : Str × List Row) (h : wfStream p = true) :
    merge_step thost (some tm) st p
      = .ok ⟨st.p_glob ++ corrProf thost tm p,
             st.c_end + p.2.countP (fun r => decide (r.event = endStr)),
             if st.c_end + p.2.countP (fun r => decide (r.event = endStr)) = 0
               then st.warns ++ [p.1] else st.warns,
             st.post ++ [(p.1, corrProf thost tm p)]⟩ := by
  obtain ⟨name, r0, rest, rfl, hpos, hh, ii, s, n, m, hsplit, hnum⟩ := wfStream_shape h
  rw [merge_step_five thost tm st name r0 rest hh ii s n m hsplit]
  unfold corrProf
  rw [hostIdOf_eq name r0 rest hh ii s n m hsplit]

/-- The merge loop over well-formed streams: the global profile is the
concatenation of the corrected streams, and the post state maps every
stream to its corrected rows. -/
theorem merge_scan_wf (thost : List (Str × ℚ)) (tm : ℚ) :
    ∀ (profs : List (Str × List Row)) (st0 : MergeState),
    (∀ p ∈ profs, wfStream p = true) →
    ∃ w, profs.foldlM (merge_step thost (some tm)) st0
      = .ok ⟨st0.p_glob ++ (profs.map (corrProf thost tm)).flatten,
             st0.c_end + (profs.map
               (fun p => p.2.countP (fun r => decide (r.event = endStr)))).sum,
             w,
             st0.post ++ profs.map (fun p => (p.1, corrProf thost tm p))⟩ := by
  intro profs
  induction profs with
  | nil =>
    intro st0 h
    obtain ⟨g0, c0, w0, p0⟩ := st0
    refine ⟨w0, ?_⟩
    show Except.ok (⟨g0, c0, w0, p0⟩ : MergeState) = _
    simp
  | cons p ps ih =>
    intro st0 h
    obtain ⟨w, hfold⟩ := ih
      ⟨st0.p_glob ++ corrProf thost tm p,
       st0.c_end + p.2.countP (fun r => decide (r.event = endStr)),
       if st0.c_end + p.2.countP (fun r => decide (r.event = endStr)) = 0
         then st0.warns ++ [p.1] else st0.warns,
       st0.post ++ [(p.1, corrProf thost tm p)]⟩
      (fun q hq => h q (List.mem_cons_of_mem p hq))
    refine ⟨w, ?_⟩
    rw [List.foldlM_cons, merge_step_wf thost tm st0 p (h p (List.mem_cons_self p ps))]
    have hbind : (Except.ok (ε := PyErr)
        (⟨st0.p_glob ++ corrProf thost tm p,
          st0.c_end + p.2.countP (fun r => decide (r.event = endStr)),
          if st0.c_end + p.2.countP (fun r => decide (r.event = endStr)) = 0
            then st0.warns ++ [p.1] else st0.warns,
          st0.post ++ [(p.1, corrProf thost tm p)]⟩ : MergeState)
        >>= fun b => ps.foldlM (merge_step thost (some tm)) b)
        = ps.foldlM (merge_step thost (some tm))
          ⟨st0.p_glob ++ corrProf thost tm p,
           st0.c_end + p.2.countP (fun r => decide (r.event = endStr)),
           if st0.c_end + p.2.countP (fun r => decide (r.event = endStr)) = 0
             then st0.warns ++ [p.1] else st0.warns,
           st0.post ++ [(p.1, corrProf thost tm p)]⟩ := rfl
    rw [hbind, hfold]
    have h1 : st0.p_glob ++ corrProf thost tm p ++ (List.map (corrProf thost tm) ps).flatten
        = st0.p_glob ++ (List.map (corrProf thost tm) (p :: ps)).flatten := by
      rw [List.map_cons, List.flatten_cons, List.append_assoc]
    have h2 : st0.c_end + List.countP (fun r => decide (r.event = endStr)) p.2
          + (List.map (fun q => List.countP (fun r => decide (r.event = endStr)) q.2) ps).sum
        = st0.c_end + (List.map (fun q =>
            List.countP (fun r => decide (r.event = endStr)) q.2) (p :: ps)).sum := by
      rw [List.map_cons, List.sum_cons]
      omega
    have h3 : st0.post ++ [(p.1, corrProf thost tm p)]
          ++ List.map (fun q => (q.1, corrProf thost tm q)) ps
        = st0.post ++ List.map (fun q => (q.1, corrProf thost tm q)) (p :: ps) := by
      rw [List.map_cons, List.append_assoc]
      rfl
    rw [h1, h2, h3]

end MasterLemmas

/-- Master description of `combine_profiles` on well-formed streams: the
sync pass succeeds with `t_min` the genuine minimum of first-record
times, and the call returns the time-sorted concatenation of the
corrected streams, the accumulated accuracy, and the corrected (mutated)
streams as post state. -/
theorem combine_wf (profs : List (Str × List Row))
    (hwf : ∀ p ∈ profs, wfStream p = true) (hne : profs ≠ []) :
    ∃ st tm w, sync_scan profs = .ok st ∧ st.t_min = some tm
      ∧ (∀ p ∈ profs, tm ≤ firstTime p) ∧ (∃ p ∈ profs, firstTime p = tm)
      ∧ combine_profiles profs = .ok
          (sortProf ((profs.map (corrProf st.t_host tm)).flatten), st.accuracy,
           profs.map (fun p => (p.1, corrProf st.t_host tm p)), w) := by
  obtain ⟨st, hsync0, htmin⟩ := sync_scan_tmin profs ⟨[], none, 0⟩ hwf
  have hsync : sync_scan profs = .ok st := hsync0
  obtain ⟨tm, htf, hbound, hex⟩ := tmin_char profs hwf hne
  have htm : st.t_min = some tm := by
    rw [htmin]
    exact htf
  obtain ⟨w, hmerge⟩ := merge_scan_wf st.t_host tm profs ⟨[], 0, [], []⟩ hwf
  refine ⟨st, tm, w, hsync, htm, hbound, hex, ?_⟩
  unfold combine_profiles
  rw [hsync]
  show (match List.foldlM (merge_step st.t_host st.t_min)
      (⟨[], 0, [], []⟩ : MergeState) profs with
    | Except.error e => Except.error e
    | Except.ok mst => Except.ok (sortProf mst.p_glob, st.accuracy, mst.post, mst.warns))
      = _
  rw [htm, hmerge]
  rfl

/-- Claim C1 (amended): for every non-empty set of parsed streams in
which every stream is non-empty, has a positive first-record time and a
well-formed five-field sync message (numeric readings unless `sys`),
`t_min` is the minimum over all streams of the first record's time, and
the returned global timeline is the time-sorted concatenation of the
streams corrected by `record.time - t_min - offset(host_id)`, with offset
`0.0` when the stream's host has no `t_host` entry.  (The unamended claim
fails for streams without a recognizable sync message: they are excluded
both from `t_min` and from the timeline.) -/
theorem c1_tmin_and_correction (profs : List (Str × List Row))
    (hwf : ∀ p ∈ profs, wfStream p = true) (hne : profs ≠ []) :
    ∃ st tm w, sync_scan profs = .ok st ∧ st.t_min = some tm
      ∧ (∀ p ∈ profs, tm ≤ firstTime p) ∧ (∃ p ∈ profs, firstTime p = tm)
      ∧ combine_profiles profs = .ok
          (sortProf ((profs.map (fun p => p.2.map (fun r =>
              { r with time := r.time - tm
                  - (lookupA st.t_host (hostIdOf p)).getD 0 }))).flatten),
           st.accuracy,
           profs.map (fun p => (p.1, p.2.map (fun r =>
              { r with time := r.time - tm
                  - (lookupA st.t_host (hostIdOf p)).getD 0 }))), w) :=
  combine_wf profs hwf hne

/-- Two well-formed streams on the same host used to instantiate the
merge theorems: first times 10 and 5, offsets 1 and 3. -/
def wfprofs : List (Str × List Row) :=
  [(['a'], [mRow 10 evStr ntpMsg1]), (['b'], [mRow 5 evStr ntpMsg3])]

/-- Witness for claim C1 at a concrete input. -/
theorem c1_witness :
    ∃ st tm w, sync_scan wfprofs = .ok st ∧ st.t_min = some tm
      ∧ (∀ p ∈ wfprofs, tm ≤ firstTime p) ∧ (∃ p ∈ wfprofs, firstTime p = tm)
      ∧ combine_profiles wfprofs = .ok
          (sortProf ((wfprofs.map (fun p => p.2.map (fun r =>
              { r with time := r.time - tm
                  - (lookupA st.t_host (hostIdOf p)).getD 0 }))).flatten),
           st.accuracy,
           wfprofs.map (fun p => (p.1, p.2.map (fun r =>
              { r with time := r.time - tm
                  - (lookupA st.t_host (hostIdOf p)).getD 0 }))), w) :=
  c1_tmin_and_correction wfprofs (by with_unfolding_all decide) (by decide)

/-- Claim C4 (amended): `combine_profiles` mutates its input.  After the
call, every stream of a well-formed input holds its records with the time
field decreased in place by `t_min` plus the host offset — the other six
fields unchanged — and this mutated state is exactly what the returned
post-call streams show.  (The unamended claim that inputs are never
mutated is refuted by `c4_counterexample`.) -/
theorem c4_mutation (profs : List (Str × List Row))
    (hwf : ∀ p ∈ profs, wfStream p = true) (hne : profs ≠ []) :
    ∃ st tm g w, sync_scan profs = .ok st ∧ st.t_min = some tm
      ∧ combine_profiles profs = .ok (g, st.accuracy,
          profs.map (fun p => (p.1, p.2.map (fun r =>
            { r with time := r.time - tm
                - (lookupA st.t_host (hostIdOf p)).getD 0 }))), w) := by
  obtain ⟨st, tm, w, hsync, htm, _, _, hcomb⟩ := combine_wf profs hwf hne
  exact ⟨st, tm, _, w, hsync, htm, hcomb⟩

/-- Witness for claim C4 at a concrete input. -/
theorem c4_witness :
    ∃ st tm g w, sync_scan wfprofs = .ok st ∧ st.t_min = some tm
      ∧ combine_profiles wfprofs = .ok (g, st.accuracy,
          wfprofs.map (fun p => (p.1, p.2.map (fun r =>
            { r with time := r.time - tm
                - (lookupA st.t_host (hostIdOf p)).getD 0 }))), w) :=
  c4_mutation wfprofs (by with_unfolding_all decide) (by decide)

section FirstSeen

/-- Builder for sync messages in the recorder's
`'%s:%s:%s:%s:%s' % (host, ip, t_sys, t_ntp, t_mode)` format. -/
def syncMsg (host ip s n mode : Str) : Str :=
  host ++ ':' :: (ip ++ ':' :: (s ++ ':' :: (n ++ ':' :: mode)))

/-- Splitting a sync message with colon-free components recovers the five
fields. -/
theorem splitOnChar_syncMsg (host ip s n mode : Str)
    (hh : ':' ∉ host) (hi : ':' ∉ ip) (hs : ':' ∉ s) (hn : ':' ∉ n)
    (hm : ':' ∉ mode) :
    splitOnChar ':' (syncMsg host ip s n mode) = [host, ip, s, n, mode] := by
  unfold syncMsg
  rw [splitOnChar_append _ hh, splitOnChar_append _ hi, splitOnChar_append _ hs,
      splitOnChar_append _ hn, splitOnChar_of_not_mem hm]

/-- Lookup at the head key of the offset table. -/
theorem lookupA_head (m : List (Str × ℚ)) (k : Str) (v : ℚ) :
    lookupA ((k, v) :: m) k = some v := by
  unfold lookupA
  rw [List.find?_cons_of_pos]
  simp

end FirstSeen

/-- Claim C2 (amended): when two streams report different ntp offsets for
the same `(host, ip)`, the first-seen offset is kept in `t_host` (and is
thus the offset used for correcting every stream of that host), and the
disagreement updates the accuracy with the SIGNED difference
`max(accuracy, new - kept)` — not the absolute difference the original
claim states: a new offset smaller than the kept one leaves the accuracy
unchanged (see `c2_counterexample`). -/
theorem c2_first_seen_signed_accuracy (name1 name2 : Str) (r1 r2 : Row)
    (rest1 rest2 : List Row) (h i sa na sb nb : Str) (va ra vb rb : ℚ)
    (hh : ':' ∉ h) (hi : ':' ∉ i) (hsa : ':' ∉ sa) (hna : ':' ∉ na)
    (hsb : ':' ∉ sb) (hnb : ':' ∉ nb)
    (hm1 : r1.msg = syncMsg h i sa na ['n','t','p'])
    (hm2 : r2.msg = syncMsg h i sb nb ['n','t','p'])
    (hva : pyFloat sa = some va) (hra : pyFloat na = some ra)
    (hvb : pyFloat sb = some vb) (hrb : pyFloat nb = some rb)
    (hdiff : va - ra ≠ vb - rb) :
    sync_scan [(name1, r1 :: rest1), (name2, r2 :: rest2)]
      = .ok ⟨[(h ++ ':' :: i, va - ra)],
             pyMinUpdate (some r1.time) r2.time,
             max 0 ((vb - rb) - (va - ra))⟩
    ∧ ∀ (tm : ℚ) (p : Str × List Row), hostIdOf p = h ++ ':' :: i →
        corrProf [(h ++ ':' :: i, va - ra)] tm p
          = p.2.map (fun r => { r with time := r.time - tm - (va - ra) }) := by
  have hsplit1 : splitOnChar ':' r1.msg = [h, i, sa, na, ['n','t','p']] := by
    rw [hm1]
    exact splitOnChar_syncMsg h i sa na ['n','t','p'] hh hi hsa hna (by decide)
  have hsplit2 : splitOnChar ':' r2.msg = [h, i, sb, nb, ['n','t','p']] := by
    rw [hm2]
    exact splitOnChar_syncMsg h i sb nb ['n','t','p'] hh hi hsb hnb (by decide)
  constructor
  · unfold sync_scan
    rw [List.foldlM_cons]
    rw [sync_step_mode_new ⟨[], none, 0⟩ name1 r1 rest1 h i sa na ['n','t','p']
      va ra hsplit1 (by decide) hva hra rfl]
    have hb1 : (Except.ok (ε := PyErr)
          (⟨insertA [] (h ++ ':' :: i) (va - ra), pyMinUpdate none r1.time, 0⟩ : SyncState)
        >>= fun b => List.foldlM sync_step b [(name2, r2 :: rest2)])
        = List.foldlM sync_step
            ⟨[(h ++ ':' :: i, va - ra)], some r1.time, 0⟩ [(name2, r2 :: rest2)] := rfl
    rw [hb1, List.foldlM_cons]
    rw [sync_step_mode_found ⟨[(h ++ ':' :: i, va - ra)], some r1.time, 0⟩
      name2 r2 rest2 h i sb nb ['n','t','p'] vb rb (va - ra) hsplit2 (by decide)
      hvb hrb (lookupA_head [] (h ++ ':' :: i) (va - ra))]
    rw [if_pos hdiff]
    rfl
  · intro tm p hp
    unfold corrProf
    rw [hp, lookupA_head]
    rfl

/-- Witness for claim C2 at a concrete input: host `h:i`, first offset
`5.0`, second offset `3.0`. -/
theorem c2_witness :
    sync_scan [(['a'], [mRow 10 evStr (syncMsg ['h'] ['i'] ['5'] ['0'] ['n','t','p'])]),
               (['b'], [mRow 11 evStr (syncMsg ['h'] ['i'] ['3'] ['0'] ['n','t','p'])])]
      = .ok ⟨[(['h'] ++ ':' :: ['i'], 5 - 0)],
             pyMinUpdate (some (mRow 10 evStr (syncMsg ['h'] ['i'] ['5'] ['0'] ['n','t','p'])).time)
               (mRow 11 evStr (syncMsg ['h'] ['i'] ['3'] ['0'] ['n','t','p'])).time,
             max 0 ((3 - 0) - (5 - 0))⟩
    ∧ ∀ (tm : ℚ) (p : Str × List Row), hostIdOf p = ['h'] ++ ':' :: ['i'] →
        corrProf [(['h'] ++ ':' :: ['i'], 5 - 0)] tm p
          = p.2.map (fun r => { r with time := r.time - tm - (5 - 0) }) :=
  c2_first_seen_signed_accuracy ['a'] ['b']
    (mRow 10 evStr (syncMsg ['h'] ['i'] ['5'] ['0'] ['n','t','p']))
    (mRow 11 evStr (syncMsg ['h'] ['i'] ['3'] ['0'] ['n','t','p'])) [] []
    ['h'] ['i'] ['5'] ['0'] ['3'] ['0'] 5 0 3 0
    (by decide) (by decide) (by decide) (by decide) (by decide) (by decide)
    rfl rfl
    (by with_unfolding_all decide) (by with_unfolding_all decide)
    (by with_unfolding_all decide) (by with_unfolding_all decide)
    (by norm_num)

section SkipLemmas

/-- Streams the merge skips entirely: empty streams and streams whose
first record has an empty message. -/
def skipStream (p : Str × List Row) : Bool :=
  match p.2 with
  | [] => true
  | r0 :: _ => decide (r0.msg = [])

/-- The sync loop leaves its state untouched on a skipped stream. -/
theorem sync_step_skip (st : SyncState) (p : Str × List Row)
    (h : skipStream p = true) : sync_step st p = .ok st := by
  obtain ⟨name, rows⟩ := p
  cases rows with
  | nil => rfl
  | cons r0 rest =>
    simp only [skipStream, decide_eq_true_eq] at h
    exact sync_step_nomsg st name r0 rest h

/-- The merge loop records a skipped stream unchanged in the post state
and does nothing else: its records are not corrected, not added to the
global profile, and no warning or error is produced for it. -/
theorem merge_step_skip (thost : List (Str × ℚ)) (tmin : Option ℚ)
    (st : MergeState) (p : Str × List Row) (h : skipStream p = true) :
    merge_step thost tmin st p = .ok { st with post := st.post ++ [p] } := by
  obtain ⟨name, rows⟩ := p
  cases rows with
  | nil => rfl
  | cons r0 rest =>
    simp only [skipStream, decide_eq_true_eq] at h
    exact merge_step_nomsg thost tmin st name r0 rest h

/-- The sync loop over a mix of well-formed and skipped streams: only the
well-formed ones feed `t_min`. -/
theorem sync_scan_tmin_skip : ∀ (profs : List (Str × List Row)) (st0 : SyncState),
    (∀ p ∈ profs, wfStream p = true ∨ skipStream p = true) →
    ∃ st, profs.foldlM sync_step st0 = .ok st
      ∧ st.t_min = (profs.filter (fun p => wfStream p)).foldl
          (fun o p => pyMinUpdate o (firstTime p)) st0.t_min := by
  intro profs
  induction profs with
  | nil => intro st0 h; exact ⟨st0, rfl, rfl⟩
  | cons p ps ih =>
    intro st0 h
    by_cases hw : wfStream p = true
    · obtain ⟨st1, hstep, htmin⟩ := sync_step_wf st0 p hw
      obtain ⟨st, hfold, htmin2⟩ := ih st1 (fun q hq => h q (List.mem_cons_of_mem p hq))
      refine ⟨st, ?_, ?_⟩
      · rw [List.foldlM_cons, hstep]
        exact hfold
      · simp only [List.filter_cons, hw, if_true, List.foldl_cons]
        rw [htmin2, htmin]
    · have hs : skipStream p = true := by
        rcases h p (List.mem_cons_self p ps) with hcon | hcon
        · exact absurd hcon hw
        · exact hcon
      have hwf : wfStream p = false := by simpa using hw
      obtain ⟨st, hfold, htmin2⟩ := ih st0 (fun q hq => h q (List.mem_cons_of_mem p hq))
      refine ⟨st, ?_, ?_⟩
      · rw [List.foldlM_cons, sync_step_skip st0 p hs]
        exact hfold
      · simp only [List.filter_cons, hwf, if_false, Bool.false_eq_true]
        exact htmin2

end SkipLemmas

/-- The merge loop over a mix of well-formed and skipped streams: only
well-formed streams contribute corrected records to the global profile;
skipped streams appear unchanged in the post state. -/
theorem merge_scan_wfskip (thost : List (Str × ℚ)) (tm : ℚ) :
    ∀ (profs : List (Str × List Row)) (st0 : MergeState),
    (∀ p ∈ profs, wfStream p = true ∨ skipStream p = true) →
    ∃ w, profs.foldlM (merge_step thost (some tm)) st0
      = .ok ⟨st0.p_glob ++ ((profs.filter (fun p => wfStream p)).map (corrProf thost tm)).flatten,
             st0.c_end + ((profs.filter (fun p => wfStream p)).map
               (fun p => p.2.countP (fun r => decide (r.event = endStr)))).sum,
             w,
             st0.post ++ profs.map
               (fun p => if wfStream p then (p.1, corrProf thost tm p) else p)⟩ := by
  intro profs
  induction profs with
  | nil =>
    intro st0 h
    obtain ⟨g0, c0, w0, p0⟩ := st0
    refine ⟨w0, ?_⟩
    show Except.ok (⟨g0, c0, w0, p0⟩ : MergeState) = _
    simp
  | cons p ps ih =>
    intro st0 h
    by_cases hw : wfStream p = true
    · obtain ⟨w, hfold⟩ := ih
        ⟨st0.p_glob ++ corrProf thost tm p,
         st0.c_end + p.2.countP (fun r => decide (r.event = endStr)),
         if st0.c_end + p.2.countP (fun r => decide (r.event = endStr)) = 0
           then st0.warns ++ [p.1] else st0.warns,
         st0.post ++ [(p.1, corrProf thost tm p)]⟩
        (fun q hq => h q (List.mem_cons_of_mem p hq))
      refine ⟨w, ?_⟩
      rw [List.foldlM_cons, merge_step_wf thost tm st0 p hw]
      have hbind : (Except.ok (ε := PyErr)
          (⟨st0.p_glob ++ corrProf thost tm p,
            st0.c_end + p.2.countP (fun r => decide (r.event = endStr)),
            if st0.c_end + p.2.countP (fun r => decide (r.event = endStr)) = 0
              then st0.warns ++ [p.1] else st0.warns,
            st0.post ++ [(p.1, corrProf thost tm p)]⟩ : MergeState)
          >>= fun b => ps.foldlM (merge_step thost (some tm)) b)
          = ps.foldlM (merge_step thost (some tm))
            ⟨st0.p_glob ++ corrProf thost tm p,
             st0.c_end + p.2.countP (fun r => decide (r.event = endStr)),
             if st0.c_end + p.2.countP (fun r => decide (r.event = endStr)) = 0
               then st0.warns ++ [p.1] else st0.warns,
             st0.post ++ [(p.1, corrProf thost tm p)]⟩ := rfl
      rw [hbind, hfold]
      have h1 : st0.p_glob ++ corrProf thost tm p
            ++ ((ps.filter (fun q => wfStream q)).map (corrProf thost tm)).flatten
          = st0.p_glob ++ (((p :: ps).filter (fun q => wfStream q)).map (corrProf thost tm)).flatten := by
        simp only [List.filter_cons, hw, if_true, List.map_cons, List.flatten_cons,
          List.append_assoc]
      have h2 : st0.c_end + p.2.countP (fun r => decide (r.event = endStr))
            + ((ps.filter (fun q => wfStream q)).map
                (fun q => q.2.countP (fun r => decide (r.event = endStr)))).sum
          = st0.c_end + (((p :: ps).filter (fun q => wfStream q)).map
              (fun q => q.2.countP (fun r => decide (r.event = endStr)))).sum := by
        simp only [List.filter_cons, hw, if_true, List.map_cons, List.sum_cons]
        omega
      have h3 : st0.post ++ [(p.1, corrProf thost tm p)]
            ++ ps.map (fun q => if wfStream q then (q.1, corrProf thost tm q) else q)
          = st0.post ++ (p :: ps).map
              (fun q => if wfStream q then (q.1, corrProf thost tm q) else q) := by
        simp only [List.map_cons, hw, if_true, List.append_assoc]
        rfl
      rw [h1, h2, h3]
    · have hs : skipStream p = true := by
        rcases h p (List.mem_cons_self p ps) with hcon | hcon
        · exact absurd hcon hw
        · exact hcon
      have hwf : wfStream p = false := by simpa using hw
      obtain ⟨w, hfold⟩ := ih { st0 with post := st0.post ++ [p] }
        (fun q hq => h q (List.mem_cons_of_mem p hq))
      refine ⟨w, ?_⟩
      rw [List.foldlM_cons, merge_step_skip thost (some tm) st0 p hs]
      have hbind : (Except.ok (ε := PyErr) ({ st0 with post := st0.post ++ [p] } : MergeState)
          >>= fun b => ps.foldlM (merge_step thost (some tm)) b)
          = ps.foldlM (merge_step thost (some tm)) { st0 with post := st0.post ++ [p] } := rfl
      rw [hbind, hfold]
      have h1 : ((p :: ps).filter (fun q => wfStream q)) = ps.filter (fun q => wfStream q) := by
        simp [List.filter_cons, hwf]
      have h3 : st0.post ++ [p]
            ++ ps.map (fun q => if wfStream q then (q.1, corrProf thost tm q) else q)
          = st0.post ++ (p :: ps).map
              (fun q => if wfStream q then (q.1, corrProf thost tm q) else q) := by
        simp only [List.map_cons, hwf, if_false, List.append_assoc, Bool.false_eq_true]
        rfl
      rw [h1, h3]

/-- Combined description of `combine_profiles` on a mix of well-formed
and skipped streams. -/
theorem combine_wfskip (profs : List (Str × List Row))
    (hmix : ∀ p ∈ profs, wfStream p = true ∨ skipStream p = true)
    (hex : ∃ q ∈ profs, wfStream q = true) :
    ∃ st tm w, sync_scan profs = .ok st ∧ st.t_min = some tm
      ∧ combine_profiles profs = .ok
          (sortProf (((profs.filter (fun p => wfStream p)).map (corrProf st.t_host tm)).flatten),
           st.accuracy,
           profs.map (fun p => if wfStream p then (p.1, corrProf st.t_host tm p) else p),
           w) := by
  obtain ⟨st, hsync0, htmin⟩ := sync_scan_tmin_skip profs ⟨[], none, 0⟩ hmix
  have hsync : sync_scan profs = .ok st := hsync0
  have hfilne : profs.filter (fun p => wfStream p) ≠ [] := by
    obtain ⟨q, hq, hqwf⟩ := hex
    intro hcon
    have hmem : q ∈ profs.filter (fun p => wfStream p) :=
      List.mem_filter.mpr ⟨hq, hqwf⟩
    rw [hcon] at hmem
    exact absurd hmem (List.not_mem_nil q)
  have hfwf : ∀ p ∈ profs.filter (fun p => wfStream p), wfStream p = true :=
    fun p hp => (List.mem_filter.mp hp).2
  obtain ⟨tm, htf, _, _⟩ := tmin_char (profs.filter (fun p => wfStream p)) hfwf hfilne
  have htm : st.t_min = some tm := by
    rw [htmin]
    exact htf
  obtain ⟨w, hmerge⟩ := merge_scan_wfskip st.t_host tm profs ⟨[], 0, [], []⟩ hmix
  refine ⟨st, tm, w, hsync, htm, ?_⟩
  unfold combine_profiles
  rw [hsync]
  show (match List.foldlM (merge_step st.t_host st.t_min)
      (⟨[], 0, [], []⟩ : MergeState) profs with
    | Except.error e => Except.error e
    | Except.ok mst => Except.ok (sortProf mst.p_glob, st.accuracy, mst.post, mst.warns))
      = _
  rw [htm, hmerge]
  rfl

/-- A single stream with a nonempty first message that does not split
into exactly five fields makes `combine_profiles` raise a `ValueError`. -/
theorem combine_malformed (name : Str) (r0 : Row) (rest : List Row)
    (hmsg : r0.msg ≠ []) (hlen : (splitOnChar ':' r0.msg).length ≠ 5) :
    combine_profiles [(name, r0 :: rest)] = .error .valueError := by
  by_cases hcol : ':' ∈ r0.msg
  · have hstep : sync_step ⟨[], none, 0⟩ (name, r0 :: rest) = .error .valueError := by
      simp only [sync_step]
      rw [if_neg (by push_neg; exact ⟨hmsg, hcol⟩)]
      cases hsp : splitOnChar ':' r0.msg with
      | nil => rfl
      | cons a t1 =>
        cases t1 with
        | nil => rfl
        | cons b t2 =>
          cases t2 with
          | nil => rfl
          | cons c2 t3 =>
            cases t3 with
            | nil => rfl
            | cons d t4 =>
              cases t4 with
              | nil => rfl
              | cons e t5 =>
                cases t5 with
                | nil =>
                  have hl5 : (splitOnChar ':' r0.msg).length = 5 := by
                    rw [hsp]
                    rfl
                  exact absurd hl5 hlen
                | cons f t6 => rfl
    have hsync : sync_scan [(name, r0 :: rest)] = .error .valueError := by
      unfold sync_scan
      rw [List.foldlM_cons, hstep]
      rfl
    unfold combine_profiles
    rw [hsync]
  · have hstep : sync_step ⟨[], none, 0⟩ (name, r0 :: rest) = .ok ⟨[], none, 0⟩ := by
      simp only [sync_step]
      rw [if_pos (Or.inr hcol)]
    have hsync : sync_scan [(name, r0 :: rest)] = .ok ⟨[], none, 0⟩ := by
      unfold sync_scan
      rw [List.foldlM_cons, hstep]
      rfl
    have hmerge : merge_step ([] : List (Str × ℚ)) (none : Option ℚ)
        ⟨[], 0, [], []⟩ (name, r0 :: rest) = .error .valueError := by
      simp only [merge_step]
      rw [if_neg hmsg, splitOnChar_of_not_mem hcol]
    unfold combine_profiles
    rw [hsync]
    show (match List.foldlM (merge_step ([] : List (Str × ℚ)) (none : Option ℚ))
        (⟨[], 0, [], []⟩ : MergeState) [(name, r0 :: rest)] with
      | Except.error e => Except.error e
      | Except.ok mst => Except.ok (sortProf mst.p_glob, (0 : ℚ), mst.post, mst.warns))
        = _
    rw [List.foldlM_cons, hmerge]
    rfl

/-- Claim C3 (amended): a stream without a recognizable sync descriptor is
not corrected-and-merged as the original claim states.  Concretely:
(i) a stream whose first record's message is empty (or which has no
records) is skipped without error, left unchanged in the post state, and
its records are excluded from the merged timeline — only streams with a
well-formed five-field descriptor are corrected and merged (with offset
`0.0` exactly when their host has no `t_host` entry); (ii) a stream whose
first message is nonempty but does not split into exactly five
`':'`-separated fields makes the merge raise a `ValueError` rather than
being treated as unsynced. -/
theorem c3_skip_and_garbled (profs : List (Str × List Row))
    (hmix : ∀ p ∈ profs, wfStream p = true ∨ skipStream p = true)
    (hex : ∃ q ∈ profs, wfStream q = true)
    (name : Str) (r0 : Row) (rest : List Row)
    (hmsg : r0.msg ≠ []) (hlen : (splitOnChar ':' r0.msg).length ≠ 5) :
    (∃ st tm w, sync_scan profs = .ok st ∧ st.t_min = some tm
      ∧ combine_profiles profs = .ok
          (sortProf (((profs.filter (fun p => wfStream p)).map (corrProf st.t_host tm)).flatten),
           st.accuracy,
           profs.map (fun p => if wfStream p then (p.1, corrProf st.t_host tm p) else p),
           w))
    ∧ combine_profiles [(name, r0 :: rest)] = .error .valueError :=
  ⟨combine_wfskip profs hmix hex, combine_malformed name r0 rest hmsg hlen⟩

/-- Witness for claim C3 at concrete inputs: stream `b` with an empty
message is skipped unchanged while stream `a` is merged, and a singleton
stream with message `a:b` (two fields) raises a `ValueError`. -/
theorem c3_witness :
    (∃ st tm w, sync_scan [(['a'], [mRow 10 evStr ntpMsg1]), (['b'], [mRow 5 evStr []])] = .ok st
      ∧ st.t_min = some tm
      ∧ combine_profiles [(['a'], [mRow 10 evStr ntpMsg1]), (['b'], [mRow 5 evStr []])] = .ok
          (sortProf ((([(['a'], [mRow 10 evStr ntpMsg1]), (['b'], [mRow 5 evStr []])].filter
              (fun p => wfStream p)).map (corrProf st.t_host tm)).flatten),
           st.accuracy,
           [(['a'], [mRow 10 evStr ntpMsg1]), (['b'], [mRow 5 evStr []])].map
             (fun p => if wfStream p then (p.1, corrProf st.t_host tm p) else p),
           w))
    ∧ combine_profiles [(['z'], [mRow 1 evStr ['a',':','b']])] = .error .valueError :=
  c3_skip_and_garbled [(['a'], [mRow 10 evStr ntpMsg1]), (['b'], [mRow 5 evStr []])]
    (by with_unfolding_all decide) (by with_unfolding_all decide)
    ['z'] (mRow 1 evStr ['a',':','b']) []
    (by decide) (by with_unfolding_all decide)

section AgreementLemmas

/-- Lookup after an update of the offset table. -/
theorem lookupA_insertA : ∀ (m : List (Str × ℚ)) (k : Str) (v : ℚ) (k2 : Str),
    lookupA (insertA m k v) k2 = if k2 = k then some v else lookupA m k2 := by
  intro m
  induction m with
  | nil =>
    intro k v k2
    by_cases hk : k2 = k
    · subst hk
      simp [insertA, lookupA, List.find?]
    · have hk2 : ¬ k = k2 := fun hcon => hk hcon.symm
      simp [insertA, lookupA, List.find?, hk, hk2]
  | cons kv m ih =>
    intro k v k2
    unfold insertA
    by_cases hkv : kv.1 = k
    · rw [if_pos hkv]
      by_cases hk : k2 = k
      · subst hk
        simp [lookupA, List.find?]
      · have hk2 : ¬ k = k2 := fun hcon => hk hcon.symm
        have hkv2 : ¬ kv.1 = k2 := fun hcon => hk2 (hkv.symm.trans hcon)
        simp [lookupA, List.find?, hk, hk2, hkv2]
    · rw [if_neg hkv]
      by_cases hk2 : kv.1 = k2
      · have hne : ¬ k2 = k := fun hcon => hkv (hk2.trans hcon)
        simp [lookupA, List.find?, hk2, hne]
      · have ih2 := ih k v k2
        unfold lookupA at ih2 ⊢
        rw [show (kv :: insertA m k v).find? (fun x => decide (x.1 = k2))
            = (insertA m k v).find? (fun x => decide (x.1 = k2)) from by
          rw [List.find?_cons_of_neg _ (by simpa using hk2)]]
        rw [show (kv :: m).find? (fun x => decide (x.1 = k2))
            = m.find? (fun x => decide (x.1 = k2)) from by
          rw [List.find?_cons_of_neg _ (by simpa using hk2)]]
        exact ih2

/-- The mode accessor on a stream with a five-field sync message. -/
theorem modeOf_eq (name : Str) (r0 : Row) (rest : List Row)
    (h i s n m : Str) (hsplit : splitOnChar ':' r0.msg = [h, i, s, n, m]) :
    modeOf (name, r0 :: rest) = m := by
  unfold modeOf syncParts firstMsg
  simp only [List.headD_cons]
  rw [hsplit]
  rfl

/-- The offset accessor on a stream with a five-field sync message and
numeric readings. -/
theorem specOff_eq (name : Str) (r0 : Row) (rest : List Row)
    (h i s n m : Str) (vs vn : ℚ) (hsplit : splitOnChar ':' r0.msg = [h, i, s, n, m])
    (hs : pyFloat s = some vs) (hn : pyFloat n = some vn) :
    specOff (name, r0 :: rest) = vs - vn := by
  unfold specOff syncParts firstMsg
  simp only [List.headD_cons]
  rw [hsplit]
  show (pyFloat s).getD 0 - (pyFloat n).getD 0 = vs - vn
  rw [hs, hn]
  rfl

/-- Host keys of the streams whose sync mode is not `sys` (the streams
that contribute an offset entry). -/
def ntpHosts (profs : List (Str × List Row)) : List Str :=
  profs.filterMap (fun p => if modeOf p ≠ sysStr then some (hostIdOf p) else none)

/-- Invariant of the sync scan under global offset agreement: if a
function `F` fixes the offset every non-`sys` stream reports for its
host, the accuracy never grows (no genuine disagreement occurs), and the
final offset table is `F` restricted to the hosts of non-`sys` streams. -/
theorem sync_scan_agree (F : Str → Option ℚ) :
    ∀ (profs : List (Str × List Row)) (st0 : SyncState),
    (∀ p ∈ profs, wfStream p = true) →
    (∀ p ∈ profs, modeOf p ≠ sysStr → F (hostIdOf p) = some (specOff p)) →
    (∀ k v, lookupA st0.t_host k = some v → F k = some v) →
    ∃ st, profs.foldlM sync_step st0 = .ok st
      ∧ st.accuracy = st0.accuracy
      ∧ (∀ k, lookupA st.t_host k
          = if k ∈ ntpHosts profs then F k else lookupA st0.t_host k) := by
  intro profs
  induction profs with
  | nil =>
    intro st0 _ _ _
    exact ⟨st0, rfl, rfl, fun k => by simp [ntpHosts]⟩
  | cons p ps ih =>
    intro st0 hwf hF hdom
    obtain ⟨name, r0, rest, rfl, hpos, hh, ii, s, n, m, hsplit, hnum⟩ :=
      wfStream_shape (hwf p (List.mem_cons_self p ps))
    have hmode : modeOf (name, r0 :: rest) = m := modeOf_eq name r0 rest hh ii s n m hsplit
    by_cases hm : m = sysStr
    · obtain ⟨st, hfold, hacc, hlook⟩ :=
        ih { st0 with t_min := pyMinUpdate st0.t_min r0.time }
          (fun q hq => hwf q (List.mem_cons_of_mem _ hq))
          (fun q hq hq2 => hF q (List.mem_cons_of_mem _ hq) hq2)
          hdom
      refine ⟨st, ?_, hacc, ?_⟩
      · rw [List.foldlM_cons,
          sync_step_sys st0 name r0 rest hh ii s n (hm ▸ hsplit)]
        exact hfold
      · intro k
        rw [hlook k]
        have hnh : ntpHosts ((name, r0 :: rest) :: ps) = ntpHosts ps := by
          unfold ntpHosts
          rw [List.filterMap_cons]
          rw [hmode]
          simp [hm]
        rw [hnh]
    · obtain ⟨vs, vn, hs, hn⟩ := hnum hm
      have hoff : specOff (name, r0 :: rest) = vs - vn :=
        specOff_eq name r0 rest hh ii s n m vs vn hsplit hs hn
      have hhost : hostIdOf (name, r0 :: rest) = hh ++ ':' :: ii :=
        hostIdOf_eq name r0 rest hh ii s n m hsplit
      have hFp : F (hh ++ ':' :: ii) = some (vs - vn) := by
        rw [← hhost, ← hoff]
        exact hF _ (List.mem_cons_self _ _) (by rw [hmode]; exact hm)
      have hstep : sync_step st0 (name, r0 :: rest)
          = .ok { st0 with t_min := pyMinUpdate st0.t_min r0.time,
                           t_host := insertA st0.t_host (hh ++ ':' :: ii) (vs - vn) } := by
        cases hlk : lookupA st0.t_host (hh ++ ':' :: ii) with
        | some kept =>
          have hkept : kept = vs - vn := by
            have := hdom _ _ hlk
            rw [hFp] at this
            exact (Option.some.inj this).symm
          rw [sync_step_mode_found st0 name r0 rest hh ii s n m vs vn kept
            hsplit hm hs hn hlk]
          rw [if_neg (by rw [hkept]; exact fun hcon => hcon rfl)]
        | none =>
          exact sync_step_mode_new st0 name r0 rest hh ii s n m vs vn hsplit hm hs hn hlk
      have hdom2 : ∀ k v, lookupA (insertA st0.t_host (hh ++ ':' :: ii) (vs - vn)) k
          = some v → F k = some v := by
        intro k v hv
        rw [lookupA_insertA] at hv
        by_cases hk : k = hh ++ ':' :: ii
        · rw [if_pos hk] at hv
          rw [hk, hFp]
          exact hv.symm ▸ rfl
        · rw [if_neg hk] at hv
          exact hdom k v hv
      obtain ⟨st, hfold, hacc, hlook⟩ :=
        ih { st0 with t_min := pyMinUpdate st0.t_min r0.time,
                      t_host := insertA st0.t_host (hh ++ ':' :: ii) (vs - vn) }
          (fun q hq => hwf q (List.mem_cons_of_mem _ hq))
          (fun q hq hq2 => hF q (List.mem_cons_of_mem _ hq) hq2)
          hdom2
      refine ⟨st, ?_, hacc, ?_⟩
      · rw [List.foldlM_cons, hstep]
        exact hfold
      · intro k
        rw [hlook k]
        have hnh : ntpHosts ((name, r0 :: rest) :: ps)
            = (hh ++ ':' :: ii) :: ntpHosts ps := by
          unfold ntpHosts
          rw [List.filterMap_cons, hmode, hhost]
          simp [hm]
        rw [hnh]
        by_cases hin : k ∈ ntpHosts ps
        · rw [if_pos hin, if_pos (List.mem_cons_of_mem _ hin)]
        · rw [if_neg hin]
          show lookupA (insertA st0.t_host (hh ++ ':' :: ii) (vs - vn)) k = _
          rw [lookupA_insertA]
          by_cases hk : k = hh ++ ':' :: ii
          · rw [if_pos hk, if_pos (by rw [hk]; exact List.mem_cons_self _ _), hk, hFp]
          · rw [if_neg hk, if_neg (by
              intro hcon
              rcases List.mem_cons.mp hcon with hc | hc
              · exact hk hc
              · exact hin hc)]

end AgreementLemmas

/-- The offset reported for host `k` by the first non-`sys` stream, the
reference value all streams of that host agree on. -/
def offConsensus (profs : List (Str × List Row)) (k : Str) : Option ℚ :=
  ((profs.filter (fun p => decide (modeOf p ≠ sysStr))).find?
    (fun p => decide (hostIdOf p = k))).map specOff

/-- Claim C8 (amended): the merge is order-independent only up to the
per-host offset agreement the original claim silently assumes, and up to
the order of records with equal corrected time.  For well-formed streams
in which all non-`sys` streams sharing a `(host, ip)` report the same
offset, permuting the input order yields the same accuracy and a global
timeline that is the same multiset of corrected records (the sorted
sequences can still order equal-time records differently, and
`c8_counterexample` shows that with disagreeing offsets both the accuracy
and the timeline change). -/
theorem c8_perm_invariance (profs profs2 : List (Str × List Row))
    (hperm : List.Perm profs profs2)
    (hwf : ∀ p ∈ profs, wfStream p = true)
    (hne : profs ≠ [])
    (hag : ∀ p ∈ profs, ∀ q ∈ profs, modeOf p ≠ sysStr → modeOf q ≠ sysStr →
      hostIdOf p = hostIdOf q → specOff p = specOff q) :
    ∃ g a po w g2 a2 po2 w2,
      combine_profiles profs = .ok (g, a, po, w)
      ∧ combine_profiles profs2 = .ok (g2, a2, po2, w2)
      ∧ List.Perm g g2 ∧ a = a2 := by
  have hwf2 : ∀ p ∈ profs2, wfStream p = true :=
    fun p hp => hwf p (hperm.mem_iff.mpr hp)
  have hne2 : profs2 ≠ [] := by
    intro hcon
    exact hne ((hcon ▸ hperm).eq_nil)
  have hF : ∀ p ∈ profs, modeOf p ≠ sysStr →
      offConsensus profs (hostIdOf p) = some (specOff p) := by
    intro p hp hmode
    unfold offConsensus
    have hpf : p ∈ profs.filter (fun q => decide (modeOf q ≠ sysStr)) :=
      List.mem_filter.mpr ⟨hp, by simpa using hmode⟩
    have hsome : ((profs.filter (fun q => decide (modeOf q ≠ sysStr))).find?
        (fun q => decide (hostIdOf q = hostIdOf p))).isSome := by
      rw [List.find?_isSome]
      exact ⟨p, hpf, by simp⟩
    obtain ⟨q, hq⟩ := Option.isSome_iff_exists.mp hsome
    rw [hq]
    have hqmem : q ∈ profs.filter (fun q => decide (modeOf q ≠ sysStr)) :=
      List.mem_of_find?_eq_some hq
    have hqpred : hostIdOf q = hostIdOf p := by simpa using List.find?_some hq
    have hqprofs : q ∈ profs := (List.mem_filter.mp hqmem).1
    have hqmode : modeOf q ≠ sysStr := by simpa using (List.mem_filter.mp hqmem).2
    have hqoff : specOff q = specOff p := hag q hqprofs p hp hqmode hmode hqpred
    simp [hqoff]
  have hF2 : ∀ p ∈ profs2, modeOf p ≠ sysStr →
      offConsensus profs (hostIdOf p) = some (specOff p) :=
    fun p hp h => hF p (hperm.mem_iff.mpr hp) h
  have hdom0 : ∀ (k : Str) (v : ℚ),
      lookupA (⟨[], none, 0⟩ : SyncState).t_host k = some v →
        offConsensus profs k = some v := by
    intro k v h
    simp [lookupA, List.find?] at h
  obtain ⟨st, tm, w, hsync, htm, hbound, hex, hcomb⟩ := combine_wf profs hwf hne
  obtain ⟨st2, tm2, w2, hsync2, htm2, hbound2, hex2, hcomb2⟩ :=
    combine_wf profs2 hwf2 hne2
  obtain ⟨stA, hfoldA, haccA, hlookA⟩ :=
    sync_scan_agree (offConsensus profs) profs ⟨[], none, 0⟩ hwf hF hdom0
  obtain ⟨stA2, hfoldA2, haccA2, hlookA2⟩ :=
    sync_scan_agree (offConsensus profs) profs2 ⟨[], none, 0⟩ hwf2 hF2 hdom0
  have hstA : st = stA := Except.ok.inj (hsync.symm.trans hfoldA)
  have hstA2 : st2 = stA2 := Except.ok.inj (hsync2.symm.trans hfoldA2)
  have hacc : st.accuracy = st2.accuracy := by
    rw [hstA, hstA2, haccA, haccA2]
  have hlk12 : ∀ k, lookupA st.t_host k = lookupA st2.t_host k := by
    intro k
    rw [hstA, hstA2, hlookA k, hlookA2 k]
    have hmemiff : (k ∈ ntpHosts profs) ↔ (k ∈ ntpHosts profs2) :=
      (hperm.filterMap (fun p => if modeOf p ≠ sysStr
        then some (hostIdOf p) else none)).mem_iff
    by_cases hk : k ∈ ntpHosts profs
    · rw [if_pos hk, if_pos (hmemiff.mp hk)]
    · rw [if_neg hk, if_neg (fun hcon => hk (hmemiff.mpr hcon))]
  have htmeq : tm = tm2 := by
    obtain ⟨p0, hp0, hpt⟩ := hex
    obtain ⟨p2, hp2, hpt2⟩ := hex2
    have h1 : tm ≤ tm2 := hpt2 ▸ hbound p2 (hperm.mem_iff.mpr hp2)
    have h2 : tm2 ≤ tm := hpt ▸ hbound2 p0 (hperm.mem_iff.mp hp0)
    exact le_antisymm h1 h2
  have hfun : corrProf st.t_host tm = corrProf st2.t_host tm2 := by
    rw [← htmeq]
    funext p
    unfold corrProf
    rw [hlk12 (hostIdOf p)]
  have hperm_g :
      List.Perm (sortProf ((profs.map (corrProf st.t_host tm)).flatten))
        (sortProf ((profs2.map (corrProf st2.t_host tm2)).flatten)) := by
    have h1 : List.Perm (sortProf ((profs.map (corrProf st.t_host tm)).flatten))
        ((profs.map (corrProf st.t_host tm)).flatten) :=
      List.perm_insertionSort _ _
    have h2 : List.Perm ((profs.map (corrProf st.t_host tm)).flatten)
        ((profs2.map (corrProf st.t_host tm)).flatten) :=
      (hperm.map (corrProf st.t_host tm)).flatten
    have h3 : List.Perm ((profs2.map (corrProf st.t_host tm)).flatten)
        (sortProf ((profs2.map (corrProf st.t_host tm)).flatten)) :=
      (List.perm_insertionSort _ _).symm
    rw [← hfun]
    exact (h1.trans h2).trans h3
  exact ⟨_, _, _, _, _, _, _, _, hcomb, hcomb2, hperm_g, hacc⟩

/-- Two well-formed parsed streams that agree on the offset for host `h:i`
(both report offset `1`), with first times 10 and 5. -/
def c8wfprofs : List (Str × List Row) :=
  [(['a'], [mRow 10 evStr ntpMsg1]), (['b'], [mRow 5 evStr ntpMsg1])]

/-- Witness for claim C8 at a concrete input: a two-stream agreeing
session and its reversal merge to the same accuracy and to timelines
that are permutations of each other. -/
theorem c8_witness :
    ∃ g a po w g2 a2 po2 w2,
      combine_profiles c8wfprofs = .ok (g, a, po, w)
      ∧ combine_profiles c8wfprofs.reverse = .ok (g2, a2, po2, w2)
      ∧ List.Perm g g2 ∧ a = a2 :=
  c8_perm_invariance c8wfprofs c8wfprofs.reverse
    (List.reverse_perm c8wfprofs).symm
    (by with_unfolding_all decide)
    (by with_unfolding_all decide)
    (by with_unfolding_all decide)
